import Mathlib

/-!
Verification of the chess/checkers/modified-chess engine (`board.py`,
`figures.py`, `main.py`) against its natural-language specification.

The Python source is shallowly embedded: the mutable `Board` object becomes a
record that every operation takes and returns; Python exceptions become
`Except` results that carry the board as it stood at the raise site (Python
exceptions propagate without rolling mutations back, so the carried board may
in principle differ from the input board); Python `dict` becomes an
association list with the usual lookup/insert/delete operations; the 8x8 grid
of one-character strings becomes `List (List String)` accessed with
Python-style indexing (negative indices wrap, out-of-range reads are `none`).
Where Python would raise `KeyError` on a missing dictionary key the embedding
returns a dedicated `keyError` value; for boards satisfying the `Consistent`
invariant those branches are unreachable.
-/

namespace ChessOop

/-- Piece colors; the source uses the strings "white" and "black". -/
inductive Color where
  | white
  | black
deriving DecidableEq, Repr

/-- The eleven figure classes of `figures.py`. -/
inductive FigKind where
  | pawn
  | rook
  | knight
  | bishop
  | queen
  | king
  | checker
  | checkerKing
  | lightRook
  | shortBishop
  | guardian
deriving DecidableEq, Repr

/-- A figure: class tag, color, and the stored position (`self.row`,
`self.column`) that `set_position` maintains. -/
structure Figure where
  kind : FigKind
  color : Color
  row : Int
  column : Int
deriving DecidableEq, Repr

/-- The `symbol` attribute assigned in each figure class `__init__`. -/
def symbol (f : Figure) : String :=
  match f.kind, f.color with
  | .pawn, .white => "P"
  | .pawn, .black => "p"
  | .rook, .white => "R"
  | .rook, .black => "r"
  | .knight, .white => "N"
  | .knight, .black => "n"
  | .bishop, .white => "B"
  | .bishop, .black => "b"
  | .queen, .white => "Q"
  | .queen, .black => "q"
  | .king, .white => "K"
  | .king, .black => "k"
  | .checker, .white => "C"
  | .checker, .black => "c"
  | .checkerKing, .white => "K"
  | .checkerKing, .black => "k"
  | .lightRook, .white => "L"
  | .lightRook, .black => "l"
  | .shortBishop, .white => "S"
  | .shortBishop, .black => "s"
  | .guardian, .white => "G"
  | .guardian, .black => "g"

/-- The three game types accepted by `main.py`. -/
inductive GameType where
  | chess
  | checkers
  | modified_chess
deriving DecidableEq, Repr

/-- The result of the interactive promotion prompt in `promote_pawn`
(the prompt re-asks until one of Q/R/B/N is entered, so the core always
receives one of the four valid letters). -/
inductive PromoChoice where
  | Q
  | R
  | B
  | N
deriving DecidableEq, Repr

/-- The figure class chosen by `promote_pawn` for each valid answer. -/
def promoKind : PromoChoice → FigKind
  | .Q => .queen
  | .R => .rook
  | .B => .bishop
  | .N => .knight

/-- Python list read `l[i]` with negative-index wrap-around; `none` models
`IndexError`. -/
def pyNth {α : Type} (l : List α) (i : Int) : Option α :=
  if 0 ≤ i then l.get? i.toNat
  else if (-i).toNat ≤ l.length then l.get? (l.length - (-i).toNat)
  else none

/-- Python list write `l[i] = v` with negative-index wrap-around; writes that
would raise `IndexError` are modelled as no-ops (all uses in the theorems are
in range). -/
def pySet {α : Type} (l : List α) (i : Int) (v : α) : List α :=
  if 0 ≤ i then l.set i.toNat v
  else if (-i).toNat ≤ l.length then l.set (l.length - (-i).toNat) v
  else l

/-- Dictionary lookup `d.get(k)` / `d[k]` on the association-list model. -/
def dictGet : List ((Int × Int) × Figure) → (Int × Int) → Option Figure
  | [], _ => none
  | kv :: rest, k => if kv.1 = k then some kv.2 else dictGet rest k

/-- Dictionary write `d[k] = v`: replaces the entry in place if the key is
present, otherwise appends (Python dicts keep insertion order). -/
def dictSet : List ((Int × Int) × Figure) → (Int × Int) → Figure → List ((Int × Int) × Figure)
  | [], k, v => [(k, v)]
  | kv :: rest, k, v => if kv.1 = k then (k, v) :: rest else kv :: dictSet rest k v

/-- Dictionary delete `del d[k]` (the caller is responsible for the
`KeyError` check, as in the embedding of the source's `del` sites). -/
def dictDel : List ((Int × Int) × Figure) → (Int × Int) → List ((Int × Int) × Figure)
  | [], _ => []
  | kv :: rest, k => if kv.1 = k then dictDel rest k else kv :: dictDel rest k

/-- One entry of `move_history` (`class MoveHistory` in `board.py`). -/
structure MoveHistory where
  from_pos : String
  to_pos : String
  moved_figure : Figure
  captured_figure : Option Figure
  last_move : Option ((Int × Int) × (Int × Int) × Figure)
  board_state : List (List String) × List ((Int × Int) × Figure)
  current_player : Color
deriving DecidableEq, Repr

/-- The `Board` object of `board.py`. -/
structure Board where
  game_type : GameType
  board : List (List String)
  figures : List ((Int × Int) × Figure)
  last_move : Option ((Int × Int) × (Int × Int) × Figure)
  move_history : List MoveHistory
  enemy_to_capture : Option (Int × Int)
  move_count : Int
deriving DecidableEq, Repr

/-- `create_board`: an 8x8 grid of "." strings. -/
def create_board : List (List String) :=
  List.replicate 8 (List.replicate 8 ".")

/-- `Board.__init__(game_type)`. -/
def Board.init (gt : GameType) : Board :=
  { game_type := gt
    board := create_board
    figures := []
    last_move := none
    move_history := []
    enemy_to_capture := none
    move_count := 0 }

/-- Read one grid cell, `self.board[row][column]`; unreadable cells (which
would raise `IndexError` in Python) read as ".". -/
def cellAt (b : Board) (p : Int × Int) : String :=
  ((pyNth b.board p.1).bind fun row => pyNth row p.2).getD "."

/-- Write one grid cell, `self.board[row][column] = v`. -/
def gridSet (g : List (List String)) (p : Int × Int) (v : String) : List (List String) :=
  match pyNth g p.1 with
  | some row => pySet g p.1 (pySet row p.2 v)
  | none => g

/-- `Board.algebraic_to_indices`: `none` models the `ValueError`
("Некорректная позиция", i.e. `InvalidPosition`).  The source checks only
that the string has two characters, the first alphabetic and the second a
digit; it performs no range check on the resulting indices. -/
def algebraic_to_indices (position : String) : Option (Int × Int) :=
  match position.toList with
  | [c0, c1] =>
    if c0.isAlpha ∧ c1.isDigit then
      some ((8 : Int) - (c1.toNat - '0'.toNat : Nat), ((c0.toLower.toNat - 'a'.toNat : Nat) : Int))
    else none
  | _ => none

/-- Strictly-between indices walked by the rook/light-rook loops
`range(start + step, stop, step)` with `step = ±1`. -/
def strictBetween (a b : Int) : List Int :=
  if a < b then (List.range (b - a - 1).toNat).map (fun i => a + 1 + (i : Int))
  else (List.range (a - b - 1).toNat).map (fun i => a - 1 - (i : Int))

/-- The cells strictly between `(r, c)` and `(tr, tc)` walked by the diagonal
loops of `Bishop`, `ShortBishop` and `CheckerKing` (the loops run while both
coordinates differ from the target; the callers ensure the two offsets have
equal absolute value). -/
def diagBetween (r c tr tc : Int) : List (Int × Int) :=
  let rs : Int := if tr > r then 1 else -1
  let cs : Int := if tc > c then 1 else -1
  (List.range ((tr - r).natAbs - 1)).map
    (fun i => (r + rs * (Int.ofNat i + 1), c + cs * (Int.ofNat i + 1)))

/-- `Rook.can_move`. -/
def rookCan (r c tr tc : Int) (b : Board) : Bool :=
  if tr = r ∧ tc ≠ c then (strictBetween c tc).all (fun cc => cellAt b (r, cc) == ".")
  else if tc = c ∧ tr ≠ r then (strictBetween r tr).all (fun rr => cellAt b (rr, c) == ".")
  else false

/-- `Knight.can_move`. -/
def knightCan (r c tr tc : Int) : Bool :=
  ((tr - r).natAbs = 2 ∧ (tc - c).natAbs = 1) ∨ ((tr - r).natAbs = 1 ∧ (tc - c).natAbs = 2)

/-- `Bishop.can_move`. -/
def bishopCan (r c tr tc : Int) (b : Board) : Bool :=
  if (tr - r).natAbs = (tc - c).natAbs then (diagBetween r c tr tc).all (fun p => cellAt b p == ".")
  else false

/-- `Queen.can_move`: delegates to a rook and a bishop placed at the queen's
position. -/
def queenCan (r c tr tc : Int) (b : Board) : Bool :=
  rookCan r c tr tc b || bishopCan r c tr tc b

/-- `King.can_move`. -/
def kingCan (r c tr tc : Int) : Bool :=
  max (tr - r).natAbs (tc - c).natAbs = 1

/-- `Guardian.can_move` (identical geometry to the king). -/
def guardianCan (r c tr tc : Int) : Bool :=
  max (tr - r).natAbs (tc - c).natAbs = 1

/-- `Pawn.can_move`.  Note that the en-passant clause checks only that the
last move was made by a `Pawn` two rows forward landing next to this pawn; it
does not compare colors. -/
def pawnCan (f : Figure) (tr tc : Int) (b : Board) : Bool :=
  let direction : Int := if f.color = .white then -1 else 1
  let start_row : Int := if f.color = .white then 6 else 1
  if tc = f.column ∧ tr = f.row + direction ∧ cellAt b (tr, tc) = "." then true
  else if tc = f.column ∧ tr = f.row + 2 * direction ∧ f.row = start_row ∧
      cellAt b (tr, tc) = "." ∧ cellAt b (f.row + direction, f.column) = "." then true
  else if (tc - f.column).natAbs = 1 ∧ tr = f.row + direction then
    if cellAt b (tr, tc) ≠ "." then
      match dictGet b.figures (tr, tc) with
      | some g => g.color ≠ f.color
      | none => false
    else if (dictGet b.figures (tr, tc)).isNone then
      match b.last_move with
      | some (lf, lt, lp) =>
        lp.kind = .pawn ∧ (lt.1 - lf.1).natAbs = 2 ∧ lt.1 = f.row ∧ lt.2 = tc
      | none => false
    else false
  else false

/-- `Checker.can_move`. -/
def checkerCan (f : Figure) (tr tc : Int) (b : Board) : Bool :=
  let direction : Int := if f.color = .white then -1 else 1
  if tr - f.row = direction ∧ (tc - f.column).natAbs = 1 ∧ cellAt b (tr, tc) = "." then true
  else if tr - f.row = 2 * direction ∧ (tc - f.column).natAbs = 2 then
    let mid_row := f.row + direction
    let mid_col := Int.fdiv (f.column + tc) 2
    if cellAt b (mid_row, mid_col) ≠ "." then
      match dictGet b.figures (mid_row, mid_col) with
      | some g => if g.color ≠ f.color ∧ cellAt b (tr, tc) = "." then true else false
      | none => false
    else false
  else false

/-- The `while` loop of `CheckerKing.can_move`: walks the strictly-between
diagonal cells carrying the `enemy_found`/`enemy_pos` state (`none` as
accumulator means no enemy found yet).  The outer `none` result models
`return False`; `some acc` models falling out of the loop.  When a cell is
occupied on the grid but has no entry in the figure map Python would raise
`KeyError`; that branch (unreachable on `Consistent` boards) treats the cell
as an enemy. -/
def scanPath (b : Board) (color : Color) :
    List (Int × Int) → Option (Int × Int) → Option (Option (Int × Int))
  | [], acc => some acc
  | p :: rest, acc =>
    if cellAt b p ≠ "." then
      match dictGet b.figures p with
      | some g =>
        if g.color = color then none
        else if acc.isSome then none
        else scanPath b color rest (some p)
      | none => if acc.isSome then none else scanPath b color rest (some p)
    else scanPath b color rest acc

/-- `CheckerKing.can_move`: returns the decision together with the board,
whose `enemy_to_capture` field it overwrites on a `true` result. -/
def checkerKingCan (f : Figure) (tr tc : Int) (b : Board) : Bool × Board :=
  if (tr - f.row).natAbs ≠ (tc - f.column).natAbs then (false, b)
  else
    match scanPath b f.color (diagBetween f.row f.column tr tc) none with
    | none => (false, b)
    | some acc =>
      if cellAt b (tr, tc) ≠ "." then (false, b)
      else (true, { b with enemy_to_capture := acc })

/-- `LightRook.can_move`. -/
def lightRookCan (r c tr tc : Int) (b : Board) : Bool :=
  if tr - r = 0 ∧ ((tc - c).natAbs = 1 ∨ (tc - c).natAbs = 2) then
    (strictBetween c tc).all (fun cc => cellAt b (r, cc) == ".")
  else if tc - c = 0 ∧ ((tr - r).natAbs = 1 ∨ (tr - r).natAbs = 2) then
    (strictBetween r tr).all (fun rr => cellAt b (rr, c) == ".")
  else false

/-- `ShortBishop.can_move`. -/
def shortBishopCan (r c tr tc : Int) (b : Board) : Bool :=
  if (tr - r).natAbs = (tc - c).natAbs ∧ ((tr - r).natAbs = 1 ∨ (tr - r).natAbs = 2) then
    (diagBetween r c tr tc).all (fun p => cellAt b p == ".")
  else false

/-- `figure.can_move(to_row, to_column, board)`: dispatch over the figure
class.  The returned board differs from the argument only for a successful
`CheckerKing` query, which records the pending capture. -/
def canMoveSt (f : Figure) (tr tc : Int) (b : Board) : Bool × Board :=
  match f.kind with
  | .pawn => (pawnCan f tr tc b, b)
  | .rook => (rookCan f.row f.column tr tc b, b)
  | .knight => (knightCan f.row f.column tr tc, b)
  | .bishop => (bishopCan f.row f.column tr tc b, b)
  | .queen => (queenCan f.row f.column tr tc b, b)
  | .king => (kingCan f.row f.column tr tc, b)
  | .checker => (checkerCan f tr tc b, b)
  | .checkerKing => checkerKingCan f tr tc b
  | .lightRook => (lightRookCan f.row f.column tr tc b, b)
  | .shortBishop => (shortBishopCan f.row f.column tr tc b, b)
  | .guardian => (guardianCan f.row f.column tr tc, b)

/-- The error conditions of §7: each `ValueError` raise site of `board.py`
gets one constructor; `keyError` stands for Python `KeyError` on a missing
dictionary key (not a spec error condition — unreachable on consistent
boards); `emptyRemove` is the `remove_figure` raise on an empty cell. -/
inductive Err where
  | invalidPosition
  | emptyCell
  | wrongOwner
  | illegalMove
  | protectedGuardian
  | occupiedBySelf
  | emptyRemove
  | keyError
deriving DecidableEq, Repr

/-- Integer interval `[a, b)` as walked by Python `range(a, b)`. -/
def intRange (a b : Int) : List Int :=
  (List.range (b - a).toNat).map (fun i => a + Int.ofNat i)

/-- `Board.is_guardian_protected`. -/
def is_guardian_protected (b : Board) (row column : Int) (color : Color) : Bool :=
  (intRange (max 0 (row - 1)) (min 8 (row + 2))).any fun r =>
    (intRange (max 0 (column - 1)) (min 8 (column + 2))).any fun c =>
      if r = row ∧ c = column then false
      else
        match dictGet b.figures (r, c) with
        | some p => p.color = color
        | none => false

/-- `Board.place_figure`: `none` models the `ValueError` on a malformed
position or an occupied cell (both raised before any mutation). -/
def place_figure (b : Board) (figure : Figure) (position : String) : Option Board :=
  match algebraic_to_indices position with
  | none => none
  | some (row, column) =>
    if cellAt b (row, column) ≠ "." then none
    else
      some { b with
        board := gridSet b.board (row, column) (symbol figure),
        figures := dictSet b.figures (row, column) { figure with row := row, column := column } }

/-- `Board.remove_figure`.  The grid cell is cleared before the `del`, so the
(consistency-violating) `KeyError` case carries the already-mutated board. -/
def remove_figure (b : Board) (position : String) : Except (Err × Board) Board :=
  match algebraic_to_indices position with
  | none => .error (.invalidPosition, b)
  | some (row, column) =>
    if cellAt b (row, column) = "." then .error (.emptyRemove, b)
    else
      let b' := { b with board := gridSet b.board (row, column) "." }
      if (dictGet b.figures (row, column)).isNone then .error (.keyError, b')
      else .ok { b' with figures := dictDel b.figures (row, column) }

/-- Lines 344-349 of `move_figure`: the protected-Guardian rejection, checked
after the legality predicate and before the snapshot. -/
def guardianCheck (b : Board) (tr tc : Int) : Option Err :=
  if cellAt b (tr, tc) ≠ "." then
    match dictGet b.figures (tr, tc) with
    | none => some .keyError
    | some tf =>
      if tf.kind = .guardian ∧ is_guardian_protected b tr tc tf.color then some .protectedGuardian
      else none
  else none

/-- The capture pattern repeated at lines 361-363, 370-372 and 375-377 of
`move_figure`: read the captured figure at square `q`, clear the grid cell,
then `del` the dictionary entry (raising `KeyError`, after the grid write,
if the key is absent). -/
def removeAtSquare (b : Board) (q : Int × Int) : Except (Err × Board) (Option Figure × Board) :=
  let cap := dictGet b.figures q
  let b' := { b with board := gridSet b.board q "." }
  if (dictGet b.figures q).isNone then .error (.keyError, b')
  else .ok (cap, { b' with figures := dictDel b.figures q })

/-- Lines 354-363 of `move_figure`: chess en-passant resolution.  The removed
pawn's square is `last_to`. -/
def enPassantStage (b : Board) (figure : Figure) (fr fc tr tc : Int)
    (captured : Option Figure) : Except (Err × Board) (Option Figure × Board) :=
  if b.game_type = .chess ∧ figure.kind = .pawn ∧ (tc - fc).natAbs = 1 ∧
      cellAt b (tr, tc) = "." then
    match b.last_move with
    | some (lf, lt, lp) =>
      if lp.kind = .pawn ∧ (lt.1 - lf.1).natAbs = 2 ∧ lt.1 = fr ∧ lt.2 = tc then
        removeAtSquare b lt
      else .ok (captured, b)
    | none => .ok (captured, b)
  else .ok (captured, b)

/-- Lines 365-378 of `move_figure`: checkers capture resolution (simple jump
midpoint removal with `mid_row`/`mid_col` the floor-division midpoints, and
the CheckerKing pending capture, which also clears `enemy_to_capture`). -/
def checkersStage (b : Board) (figure : Figure) (fr fc tr tc : Int)
    (captured : Option Figure) : Except (Err × Board) (Option Figure × Board) :=
  if b.game_type = .checkers then
    if figure.kind = .checker ∧ (tr - fr).natAbs = 2 then
      removeAtSquare b (Int.fdiv (fr + tr) 2, Int.fdiv (fc + tc) 2)
    else if figure.kind = .checkerKing then
      match b.enemy_to_capture with
      | some en =>
        match removeAtSquare b en with
        | .error e => .error e
        | .ok (cap, bb) => .ok (cap, { bb with enemy_to_capture := none })
      | none => .ok (captured, b)
    else .ok (captured, b)
  else .ok (captured, b)

/-- Lines 400-419 of `move_figure`: the three promotion rules, applied in
source order to the moved figure's destination square.  The source reads
`self.game_type` for each check; that field is never written during
`move_figure`, so all three checks read the input's `game_type`. -/
def promotions (b : Board) (figure : Figure) (tr tc : Int) (promo : PromoChoice) : Board :=
  let b6 :=
    if b.game_type = .chess ∧ figure.kind = .pawn ∧
        ((figure.color = .white ∧ tr = 0) ∨ (figure.color = .black ∧ tr = 7)) then
      let nf : Figure := ⟨promoKind promo, figure.color, tr, tc⟩
      { b with board := gridSet b.board (tr, tc) (symbol nf),
               figures := dictSet b.figures (tr, tc) nf }
    else b
  let b7 :=
    if b.game_type = .checkers ∧ figure.kind = .checker ∧
        ((figure.color = .white ∧ tr = 0) ∨ (figure.color = .black ∧ tr = 7)) then
      let nf : Figure := ⟨.checkerKing, figure.color, tr, tc⟩
      { b6 with figures := dictSet b6.figures (tr, tc) nf,
                board := gridSet b6.board (tr, tc) (symbol nf) }
    else b6
  if b.game_type = .modified_chess ∧ figure.kind = .lightRook ∧
      ((figure.color = .white ∧ tr = 0) ∨ (figure.color = .black ∧ tr = 7)) then
    let nf : Figure := ⟨.rook, figure.color, tr, tc⟩
    { b7 with figures := dictSet b7.figures (tr, tc) nf,
              board := gridSet b7.board (tr, tc) (symbol nf) }
  else b7

/-- Lines 386-398 of `move_figure`: clear the origin, move the figure (with
its updated stored position), record `last_move`, append the history entry
(carrying the pre-move snapshot), and increment the move counter; then apply
the promotions. -/
def relocateStage (b : Board) (figure : Figure) (fr fc tr tc : Int)
    (from_position to_position : String) (captured : Option Figure)
    (snapshot : List (List String) × List ((Int × Int) × Figure))
    (current_player : Color) (promo : PromoChoice) : Except (Err × Board) Board :=
  let b4' := { b with board := gridSet b.board (fr, fc) "." }
  if (dictGet b.figures (fr, fc)).isNone then .error (.keyError, b4')
  else
    let figure2 : Figure := { figure with row := tr, column := tc }
    let lm := ((fr, fc), (tr, tc), figure2)
    let entry : MoveHistory :=
      { from_pos := from_position, to_pos := to_position, moved_figure := figure2,
        captured_figure := captured, last_move := some lm, board_state := snapshot,
        current_player := current_player }
    let b5 : Board :=
      { b4' with
        board := gridSet b4'.board (tr, tc) (symbol figure2),
        figures := dictSet (dictDel b.figures (fr, fc)) (tr, tc) figure2,
        last_move := some lm,
        move_history := entry :: b.move_history,
        move_count := b.move_count + 1 }
    .ok (promotions b5 figure tr tc promo)

/-- Lines 380-384 of `move_figure` followed by the relocation: the friendly-
destination rejection (raised after the snapshot was taken) and the generic
capture. -/
def mainStage (b : Board) (figure : Figure) (fr fc tr tc : Int)
    (from_position to_position : String) (captured : Option Figure)
    (snapshot : List (List String) × List ((Int × Int) × Figure))
    (current_player : Color) (promo : PromoChoice) : Except (Err × Board) Board :=
  if cellAt b (tr, tc) ≠ "." then
    match dictGet b.figures (tr, tc) with
    | none => .error (.keyError, b)
    | some tf =>
      if tf.color = figure.color then .error (.occupiedBySelf, b)
      else
        match remove_figure b to_position with
        | .error e => .error e
        | .ok b3 =>
          relocateStage b3 figure fr fc tr tc from_position to_position captured snapshot
            current_player promo
  else
    relocateStage b figure fr fc tr tc from_position to_position captured snapshot
      current_player promo

/-- `Board.move_figure(from_position, to_position, current_player)`.  The
interactive promotion choice is passed in as `promo`.  An `error (e, b')`
result models a raised exception with `b'` the board as mutated up to the
raise site. -/
def move_figure (b : Board) (from_position to_position : String)
    (current_player : Color) (promo : PromoChoice) : Except (Err × Board) Board :=
  match algebraic_to_indices from_position with
  | none => .error (.invalidPosition, b)
  | some (fr, fc) =>
    match algebraic_to_indices to_position with
    | none => .error (.invalidPosition, b)
    | some (tr, tc) =>
      if cellAt b (fr, fc) = "." then .error (.emptyCell, b)
      else
        match dictGet b.figures (fr, fc) with
        | none => .error (.keyError, b)
        | some figure =>
          if figure.color ≠ current_player then .error (.wrongOwner, b)
          else
            match canMoveSt figure tr tc b with
            | (false, b1) => .error (.illegalMove, b1)
            | (true, b1) =>
              match guardianCheck b1 tr tc with
              | some e => .error (e, b1)
              | none =>
                -- `save_state` copies the board and figure map here (the
                -- snapshot argument below), and `captured_figure` is
                -- initialized to `get_piece(to_row, to_column)`.
                match enPassantStage b1 figure fr fc tr tc (dictGet b1.figures (tr, tc)) with
                | .error e => .error e
                | .ok (captured1, b2) =>
                  match checkersStage b2 figure fr fc tr tc captured1 with
                  | .error e => .error e
                  | .ok (captured2, b3) =>
                    mainStage b3 figure fr fc tr tc from_position to_position captured2
                      (b1.board, b1.figures) current_player promo

/-- The rejection decision taken strictly before `save_state` is called:
lines 330-349 of `move_figure` (parsing, empty origin, wrong owner, legality
predicate, protected Guardian).  `move_figure` performs exactly these checks,
in this order, before taking the snapshot. -/
def preSnapshotReject (b : Board) (from_position to_position : String)
    (current_player : Color) : Option Err :=
  match algebraic_to_indices from_position with
  | none => some .invalidPosition
  | some (fr, fc) =>
    match algebraic_to_indices to_position with
    | none => some .invalidPosition
    | some (tr, tc) =>
      if cellAt b (fr, fc) = "." then some .emptyCell
      else
        match dictGet b.figures (fr, fc) with
        | none => some .keyError
        | some figure =>
          if figure.color ≠ current_player then some .wrongOwner
          else
            match canMoveSt figure tr tc b with
            | (false, _) => some .illegalMove
            | (true, b1) => guardianCheck b1 tr tc

/-- `Board.undo_move`: a no-op returning `none` on empty history; otherwise
pops the newest entry (the head of the embedded history list), restores grid,
figure map and `last_move` from it, and decrements the move counter. -/
def undo_move (b : Board) : Option Color × Board :=
  match b.move_history with
  | [] => (none, b)
  | last :: rest =>
    (some last.current_player,
     { b with
       board := last.board_state.1
       figures := last.board_state.2
       last_move := last.last_move
       move_history := rest
       move_count := b.move_count - 1 })

/-- The opponent color computed at the top of `get_threatened_figures`. -/
def opponentOf : Color → Color
  | .white => .black
  | .black => .white

/-- `Board.is_position_under_threat`: some figure of the opponent color may
move onto the square.  (Python threads the `enemy_to_capture` side effect of
`CheckerKing.can_move` through the loop; no legality predicate reads that
field, so the decisions are those of `canMoveSt` on the unmodified board.) -/
def is_position_under_threat (b : Board) (row column : Int) (opponent_color : Color) : Bool :=
  b.figures.any fun kv =>
    decide (kv.2.color = opponent_color) && (canMoveSt kv.2 row column b).1

/-- `Board.get_threatened_figures`: collects the current player's threatened
piece positions and the check flag. -/
def get_threatened_figures (b : Board) (current_player : Color) :
    List (Int × Int) × Bool :=
  let opponent_color := opponentOf current_player
  b.figures.foldl
    (fun acc kv =>
      if kv.2.color = current_player ∧
          is_position_under_threat b kv.1.1 kv.1.2 opponent_color = true then
        (acc.1 ++ [kv.1], acc.2 || decide (kv.2.kind = .king))
      else acc)
    ([], false)

/-- Well-formedness of a board: 8x8 grid; duplicate-free figure keys; every
figure sits at its key, in range, with its symbol on the grid; every occupied
grid cell has a figure.  `Board` methods maintain this invariant; the
`KeyError` branches of the embedding are unreachable on consistent boards. -/
def Consistent (b : Board) : Prop :=
  b.board.length = 8 ∧
  (∀ row ∈ b.board, row.length = 8) ∧
  (b.figures.map Prod.fst).Nodup ∧
  (∀ kv ∈ b.figures,
      kv.2.row = kv.1.1 ∧ kv.2.column = kv.1.2 ∧
      0 ≤ kv.1.1 ∧ kv.1.1 < 8 ∧ 0 ≤ kv.1.2 ∧ kv.1.2 < 8 ∧
      cellAt b kv.1 = symbol kv.2) ∧
  (∀ r ∈ intRange 0 8, ∀ c ∈ intRange 0 8,
      cellAt b (r, c) ≠ "." → (dictGet b.figures (r, c)).isSome = true)

instance (b : Board) : Decidable (Consistent b) := by
  unfold Consistent
  infer_instance

/-! ### Helper lemmas about the dictionary and grid models -/

theorem symbol_ne_dot (f : Figure) : symbol f ≠ "." := by
  cases hk : f.kind <;> cases hc : f.color <;> simp [symbol, hk, hc]

theorem dictGet_mem {l : List ((Int × Int) × Figure)} {k : Int × Int} {v : Figure}
    (h : dictGet l k = some v) : (k, v) ∈ l := by
  induction l with
  | nil => simp [dictGet] at h
  | cons kv rest ih =>
    by_cases hk : kv.1 = k
    · obtain ⟨k1, v1⟩ := kv
      obtain rfl : k1 = k := hk
      simp only [dictGet, if_pos rfl] at h
      obtain rfl : v1 = v := by injection h
      exact List.mem_cons_self _ _
    · simp only [dictGet, if_neg hk] at h
      exact List.mem_cons_of_mem _ (ih h)

theorem dictGet_of_mem_nodup {l : List ((Int × Int) × Figure)}
    (hnd : (l.map Prod.fst).Nodup) {k : Int × Int} {v : Figure}
    (h : (k, v) ∈ l) : dictGet l k = some v := by
  induction l with
  | nil => simp at h
  | cons kv rest ih =>
    simp only [List.map_cons, List.nodup_cons] at hnd
    rcases List.mem_cons.mp h with h1 | h1
    · subst h1
      simp [dictGet]
    · have hne : kv.1 ≠ k := by
        intro he
        exact hnd.1 (he ▸ List.mem_map_of_mem Prod.fst h1)
      simp only [dictGet, if_neg hne]
      exact ih hnd.2 h1

theorem dictGet_dictDel_ne (l : List ((Int × Int) × Figure)) {k k' : Int × Int}
    (h : k' ≠ k) : dictGet (dictDel l k) k' = dictGet l k' := by
  induction l with
  | nil => rfl
  | cons kv rest ih =>
    by_cases hk : kv.1 = k
    · simp only [dictDel, if_pos hk, ih, dictGet]
      rw [if_neg (by rw [hk]; exact fun he => h he.symm)]
    · by_cases hk' : kv.1 = k'
      · simp only [dictDel, if_neg hk, dictGet, if_pos hk']
      · simp only [dictDel, if_neg hk, dictGet, if_neg hk']
        exact ih

theorem pySet_length {α : Type} (l : List α) (i : Int) (v : α) :
    (pySet l i v).length = l.length := by
  unfold pySet
  split_ifs <;> simp

/-- Index resolution shared by `pyNth` and `pySet` (proof infrastructure
only): the Nat index a Python int index denotes, if any. -/
def pyResolve (len : Nat) (i : Int) : Option Nat :=
  if 0 ≤ i then some i.toNat
  else if (-i).toNat ≤ len then some (len - (-i).toNat)
  else none

theorem pyNth_eq_resolve {α : Type} (l : List α) (i : Int) :
    pyNth l i = (pyResolve l.length i).bind l.get? := by
  unfold pyNth pyResolve
  split_ifs <;> rfl

theorem pySet_eq_resolve {α : Type} (l : List α) (i : Int) (v : α) :
    pySet l i v = match pyResolve l.length i with
      | some m => l.set m v
      | none => l := by
  unfold pySet pyResolve
  split_ifs <;> rfl

theorem pyNth_pySet {α : Type} (l : List α) (i : Int) (v : α) (j : Int) :
    pyNth (pySet l i v) j = pyNth l j ∨
      (pyNth (pySet l i v) j = some v ∧ pyNth l j = pyNth l i) := by
  rw [pyNth_eq_resolve (pySet l i v) j, pySet_length, pyNth_eq_resolve l j,
    pyNth_eq_resolve l i, pySet_eq_resolve l i v]
  rcases hi : pyResolve l.length i with _ | m
  · left
    rfl
  · rcases hj : pyResolve l.length j with _ | n
    · left
      rfl
    · simp only [Option.some_bind]
      by_cases hmn : m = n
      · subst hmn
        rcases hw : l.get? m with _ | w
        · left
          rw [List.get?_set_eq v m l, hw]
          rfl
        · right
          rw [List.get?_set_eq v m l, hw]
          exact ⟨rfl, rfl⟩
      · left
        exact List.get?_set_ne v l hmn

theorem cellAt_gridSet_empty {b b' : Board} {q : Int × Int}
    (hb : b'.board = gridSet b.board q ".") (p : Int × Int)
    (he : cellAt b p = ".") : cellAt b' p = "." := by
  unfold cellAt at he ⊢
  rw [hb]
  unfold gridSet
  rcases hq : pyNth b.board q.1 with _ | row
  · exact he
  · rcases pyNth_pySet b.board q.1 (pySet row q.2 ".") p.1 with h1 | ⟨h1, h1'⟩
    · rw [h1]
      exact he
    · rw [h1]
      simp only [Option.some_bind]
      rw [h1', hq] at he
      simp only [Option.some_bind] at he
      rcases pyNth_pySet row q.2 "." p.2 with h2 | ⟨h2, _⟩
      · rw [h2]
        exact he
      · rw [h2]
        rfl

/-! ### Claim C3 -/

/-- C3: the position parser accepts every two-character letter+digit string
with no range check, so "A0", "I1" and "a9" parse successfully (to
out-of-range indices) instead of being rejected with `InvalidPosition`; only
the shape is validated ("" is rejected), and "A1"/"H8" parse to the corner
indices. -/
theorem c3_parser_accepts_out_of_range :
    algebraic_to_indices "A0" = some (8, 0) ∧
    algebraic_to_indices "I1" = some (7, 8) ∧
    algebraic_to_indices "a9" = some (-1, 0) ∧
    algebraic_to_indices "" = none ∧
    algebraic_to_indices "A1" = some (7, 0) ∧
    algebraic_to_indices "H8" = some (0, 7) := by
  refine ⟨rfl, rfl, rfl, rfl, rfl, rfl⟩

/-! ### Claim C1 -/

/-- A two-pawn chess position: white pawn on E2, black pawn on A7. -/
def bC1 : Board :=
  { game_type := .chess
    board := gridSet (gridSet create_board (6, 4) "P") (1, 0) "p"
    figures := [((6, 4), ⟨.pawn, .white, 6, 4⟩), ((1, 0), ⟨.pawn, .black, 1, 0⟩)]
    last_move := none
    move_history := []
    enemy_to_capture := none
    move_count := 0 }

/-- The board after white plays E2-E4 on `bC1`. -/
def bC1After : Board :=
  match move_figure bC1 "E2" "E4" .white .Q with
  | .ok b' => b'
  | .error (_, b') => b'

/-- C1: `move_figure` followed by `undo_move` restores the grid, the figure
map and the move counter, but NOT the Last Move: the history entry records
`self.last_move` after it has already been overwritten with the new move
(line 392 runs before line 393-394 of `board.py`), so undo sets `last_move`
to the just-undone move instead of the value that preceded it.  Concretely:
on `bC1` (where `last_move` is `none`) playing E2-E4 and undoing yields
`last_move = some ((6,4),(4,4),pawn)`, not `none`. -/
theorem c1_move_undo_last_move_bug :
    Consistent bC1 ∧
    move_figure bC1 "E2" "E4" .white .Q = .ok bC1After ∧
    (undo_move bC1After).1 = some .white ∧
    (undo_move bC1After).2.board = bC1.board ∧
    (undo_move bC1After).2.figures = bC1.figures ∧
    (undo_move bC1After).2.move_count = bC1.move_count ∧
    (undo_move bC1After).2.move_history = bC1.move_history ∧
    bC1.last_move = none ∧
    (undo_move bC1After).2.last_move = some ((6, 4), (4, 4), ⟨.pawn, .white, 4, 4⟩) := by
  refine ⟨by decide, rfl, rfl, by decide, by decide, by decide, by decide, rfl, by decide⟩

/-! ### Component lemmas about the legality predicates -/

theorem checkerKingCan_spec (f : Figure) (tr tc : Int) (b : Board) :
    checkerKingCan f tr tc b = (false, b) ∨
    (∃ acc, checkerKingCan f tr tc b = (true, { b with enemy_to_capture := acc }) ∧
      cellAt b (tr, tc) = ".") := by
  unfold checkerKingCan
  split
  · left
    rfl
  · split
    · left
      rfl
    · rename_i acc _
      split
      · left
        rfl
      · rename_i hne
        right
        exact ⟨acc, rfl, not_not.mp hne⟩

theorem checkerKingCan_false_snd {f : Figure} {tr tc : Int} {b : Board}
    (h : (checkerKingCan f tr tc b).1 = false) : (checkerKingCan f tr tc b).2 = b := by
  rcases checkerKingCan_spec f tr tc b with hs | ⟨acc, hs, -⟩
  · rw [hs]
  · rw [hs] at h
    simp at h

theorem checkerKingCan_true {f : Figure} {tr tc : Int} {b : Board} {b' : Board}
    (h : checkerKingCan f tr tc b = (true, b')) :
    cellAt b (tr, tc) = "." ∧ ∃ acc, b' = { b with enemy_to_capture := acc } := by
  rcases checkerKingCan_spec f tr tc b with hs | ⟨acc, hs, he⟩
  · rw [hs] at h
    simp at h
  · rw [hs] at h
    injection h with h1 h2
    exact ⟨he, acc, h2.symm⟩

theorem canMoveSt_snd_of_ne_ck {f : Figure} (tr tc : Int) (b : Board)
    (h : f.kind ≠ .checkerKing) : (canMoveSt f tr tc b).2 = b := by
  cases hk : f.kind <;> simp only [canMoveSt, hk]
  exact absurd hk h

theorem canMoveSt_false_snd {f : Figure} {tr tc : Int} {b : Board}
    (h : (canMoveSt f tr tc b).1 = false) : (canMoveSt f tr tc b).2 = b := by
  by_cases hk : f.kind = .checkerKing
  · simp only [canMoveSt, hk] at h ⊢
    exact checkerKingCan_false_snd h
  · exact canMoveSt_snd_of_ne_ck tr tc b hk

theorem canMoveSt_ck_true {f : Figure} {tr tc : Int} {b b1 : Board}
    (hk : f.kind = .checkerKing) (h : canMoveSt f tr tc b = (true, b1)) :
    cellAt b (tr, tc) = "." ∧ ∃ acc, b1 = { b with enemy_to_capture := acc } := by
  simp only [canMoveSt, hk] at h
  exact checkerKingCan_true h

theorem checkerCan_dest_empty {f : Figure} {tr tc : Int} {b : Board}
    (h : checkerCan f tr tc b = true) : cellAt b (tr, tc) = "." := by
  dsimp only [checkerCan] at h
  split_ifs at h <;>
    first
      | exact (‹tr - f.row = -1 ∧ (tc - f.column).natAbs = 1 ∧ cellAt b (tr, tc) = "."›).2.2
      | exact (‹tr - f.row = 1 ∧ (tc - f.column).natAbs = 1 ∧ cellAt b (tr, tc) = "."›).2.2
      | (split at h <;> simp_all)

theorem canMoveSt_checker_true {f : Figure} {tr tc : Int} {b : Board}
    (hk : f.kind = .checker) (h : (canMoveSt f tr tc b).1 = true) :
    cellAt b (tr, tc) = "." := by
  simp only [canMoveSt, hk] at h
  exact checkerCan_dest_empty h

/-- The board component of `canMoveSt` can differ from the input only in the
`enemy_to_capture` field. -/
theorem canMoveSt_snd_pending (f : Figure) (tr tc : Int) (b : Board) :
    ∃ acc, (canMoveSt f tr tc b).2 = { b with enemy_to_capture := acc } := by
  by_cases hk : f.kind = .checkerKing
  · rcases hres : canMoveSt f tr tc b with ⟨ok, b1⟩
    cases ok
    · refine ⟨b.enemy_to_capture, ?_⟩
      have h1 : (canMoveSt f tr tc b).1 = false := by rw [hres]
      have h2 := canMoveSt_false_snd h1
      rw [hres] at h2
      exact h2
    · obtain ⟨-, acc, hacc⟩ := canMoveSt_ck_true hk hres
      exact ⟨acc, hacc⟩
  · exact ⟨b.enemy_to_capture, canMoveSt_snd_of_ne_ck tr tc b hk⟩

theorem cellAt_pending (b : Board) (acc : Option (Int × Int)) (p : Int × Int) :
    cellAt { b with enemy_to_capture := acc } p = cellAt b p := rfl

theorem canMoveSt_true_snd_of_dest_nonempty {f : Figure} {tr tc : Int} {b b1 : Board}
    (h : canMoveSt f tr tc b = (true, b1)) (hne : cellAt b (tr, tc) ≠ ".") : b1 = b := by
  by_cases hk : f.kind = .checkerKing
  · obtain ⟨he, -⟩ := canMoveSt_ck_true hk h
    exact absurd he hne
  · have h2 := canMoveSt_snd_of_ne_ck tr tc b hk
    rw [h] at h2
    exact h2

/-- `canMoveSt` preserves every field except possibly `enemy_to_capture`. -/
theorem canMoveSt_snd_cellAt (f : Figure) (tr tc : Int) (b : Board) (p : Int × Int) :
    cellAt (canMoveSt f tr tc b).2 p = cellAt b p := by
  obtain ⟨acc, hacc⟩ := canMoveSt_snd_pending f tr tc b
  rw [hacc]
  rfl

/-! ### Stage lemmas about `move_figure` -/

theorem guardianCheck_some_dest {b : Board} {tr tc : Int} {e : Err}
    (h : guardianCheck b tr tc = some e) : cellAt b (tr, tc) ≠ "." := by
  unfold guardianCheck at h
  by_cases hne : cellAt b (tr, tc) ≠ "."
  · exact hne
  · rw [if_neg hne] at h
    exact absurd h (by simp)

theorem removeAtSquare_error {b : Board} {q : Int × Int} {e : Err} {b' : Board}
    (h : removeAtSquare b q = .error (e, b')) :
    e = .keyError ∧ b' = { b with board := gridSet b.board q "." } := by
  unfold removeAtSquare at h
  split at h
  · injection h with h1
    injection h1 with h2 h3
    exact ⟨h2.symm, h3.symm⟩
  · exact absurd h (by simp)

theorem removeAtSquare_ok {b : Board} {q : Int × Int} {cap : Option Figure} {b2 : Board}
    (h : removeAtSquare b q = .ok (cap, b2)) :
    cap = dictGet b.figures q ∧
    b2 = { b with board := gridSet b.board q ".", figures := dictDel b.figures q } := by
  unfold removeAtSquare at h
  split at h
  · exact absurd h (by simp)
  · injection h with h1
    injection h1 with h2 h3
    exact ⟨h2.symm, h3.symm⟩

theorem enPassantStage_error_kinds {b : Board} {figure : Figure} {fr fc tr tc : Int}
    {cap : Option Figure} {e : Err} {b' : Board}
    (h : enPassantStage b figure fr fc tr tc cap = .error (e, b')) : e = .keyError := by
  unfold enPassantStage at h
  split at h
  · split at h
    · split at h
      · exact (removeAtSquare_error h).1
      · exact absurd h (by simp)
    · exact absurd h (by simp)
  · exact absurd h (by simp)

theorem enPassantStage_ok_board {b : Board} {figure : Figure} {fr fc tr tc : Int}
    {cap cap' : Option Figure} {b2 : Board}
    (h : enPassantStage b figure fr fc tr tc cap = .ok (cap', b2)) :
    (cap' = cap ∧ b2 = b) ∨
    (∃ q, b2.board = gridSet b.board q "." ∧ b2.figures = dictDel b.figures q ∧
      b2.game_type = b.game_type ∧ b2.last_move = b.last_move ∧
      b2.move_history = b.move_history ∧ b2.enemy_to_capture = b.enemy_to_capture ∧
      b2.move_count = b.move_count ∧ cellAt b (tr, tc) = ".") := by
  unfold enPassantStage at h
  split at h
  · rename_i hcond
    split at h
    · rename_i lf lt lp hlm
      split at h
      · obtain ⟨-, hb2⟩ := removeAtSquare_ok h
        right
        exact ⟨lt, by rw [hb2], by rw [hb2], by rw [hb2], by rw [hb2], by rw [hb2],
          by rw [hb2], by rw [hb2], hcond.2.2.2⟩
      · injection h with h1
        injection h1 with h2 h3
        exact Or.inl ⟨h2.symm, h3.symm⟩
    · injection h with h1
      injection h1 with h2 h3
      exact Or.inl ⟨h2.symm, h3.symm⟩
  · injection h with h1
    injection h1 with h2 h3
    exact Or.inl ⟨h2.symm, h3.symm⟩

theorem checkersStage_error_kinds {b : Board} {figure : Figure} {fr fc tr tc : Int}
    {cap : Option Figure} {e : Err} {b' : Board}
    (h : checkersStage b figure fr fc tr tc cap = .error (e, b')) : e = .keyError := by
  unfold checkersStage at h
  split at h
  · split at h
    · exact (removeAtSquare_error h).1
    · split at h
      · split at h
        · split at h
          · rename_i p hrem
            obtain ⟨e0, b0⟩ := p
            obtain ⟨he, -⟩ := removeAtSquare_error hrem
            injection h with h1
            injection h1 with h2 h3
            rw [← h2]
            exact he
          · exact absurd h (by simp)
        · exact absurd h (by simp)
      · exact absurd h (by simp)
  · exact absurd h (by simp)

theorem checkersStage_ok_board {b : Board} {figure : Figure} {fr fc tr tc : Int}
    {cap cap' : Option Figure} {b3 : Board}
    (h : checkersStage b figure fr fc tr tc cap = .ok (cap', b3)) :
    (cap' = cap ∧ b3 = b) ∨
    ((figure.kind = .checker ∨ figure.kind = .checkerKing) ∧
      ∃ q, b3.board = gridSet b.board q "." ∧
        b3.game_type = b.game_type ∧ b3.last_move = b.last_move ∧
        b3.move_history = b.move_history ∧ b3.move_count = b.move_count) := by
  unfold checkersStage at h
  split at h
  · split at h
    · rename_i hcond
      obtain ⟨-, hb3⟩ := removeAtSquare_ok h
      right
      exact ⟨Or.inl hcond.1, (Int.fdiv (fr + tr) 2, Int.fdiv (fc + tc) 2),
        by rw [hb3], by rw [hb3], by rw [hb3], by rw [hb3], by rw [hb3]⟩
    · split at h
      · rename_i hck
        split at h
        · rename_i en hen
          split at h
          · exact absurd h (by simp)
          · rename_i cap0 bb hrem
            obtain ⟨-, hbb⟩ := removeAtSquare_ok hrem
            injection h with h1
            injection h1 with h2 h3
            right
            refine ⟨Or.inr hck, en, ?_, ?_, ?_, ?_, ?_⟩ <;>
              rw [← h3, hbb]
        · injection h with h1
          injection h1 with h2 h3
          exact Or.inl ⟨h2.symm, h3.symm⟩
      · injection h with h1
        injection h1 with h2 h3
        exact Or.inl ⟨h2.symm, h3.symm⟩
  · injection h with h1
    injection h1 with h2 h3
    exact Or.inl ⟨h2.symm, h3.symm⟩

theorem remove_figure_error_kinds {b : Board} {pos : String} {e : Err} {b' : Board}
    (h : remove_figure b pos = .error (e, b')) :
    e = .invalidPosition ∨ e = .emptyRemove ∨ e = .keyError := by
  unfold remove_figure at h
  split at h
  · injection h with h1
    injection h1 with h2 h3
    exact Or.inl h2.symm
  · split at h
    · injection h with h1
      injection h1 with h2 h3
      exact Or.inr (Or.inl h2.symm)
    · split at h
      · injection h with h1
        injection h1 with h2 h3
        exact Or.inr (Or.inr h2.symm)
      · exact absurd h (by simp)

theorem relocateStage_error_kinds {b : Board} {figure : Figure} {fr fc tr tc : Int}
    {fp tp : String} {cap : Option Figure}
    {snap : List (List String) × List ((Int × Int) × Figure)} {pl : Color}
    {promo : PromoChoice} {e : Err} {b' : Board}
    (h : relocateStage b figure fr fc tr tc fp tp cap snap pl promo = .error (e, b')) :
    e = .keyError := by
  unfold relocateStage at h
  split at h
  · injection h with h1
    injection h1 with h2 h3
    exact h2.symm
  · exact absurd h (by simp)

theorem enPassantStage_ok_preserve_empty {b : Board} {figure : Figure} {fr fc tr tc : Int}
    {cap cap' : Option Figure} {b2 : Board}
    (h : enPassantStage b figure fr fc tr tc cap = .ok (cap', b2))
    {p : Int × Int} (he : cellAt b p = ".") : cellAt b2 p = "." := by
  rcases enPassantStage_ok_board h with ⟨-, rfl⟩ | ⟨q, hbd, -⟩
  · exact he
  · exact cellAt_gridSet_empty hbd p he

theorem enPassantStage_ok_dest {b : Board} {figure : Figure} {fr fc tr tc : Int}
    {cap cap' : Option Figure} {b2 : Board}
    (h : enPassantStage b figure fr fc tr tc cap = .ok (cap', b2))
    (hne : cellAt b2 (tr, tc) ≠ ".") : cap' = cap ∧ b2 = b := by
  rcases enPassantStage_ok_board h with ⟨h1, h2⟩ | ⟨q, hbd, -, -, -, -, -, -, hde⟩
  · exact ⟨h1, h2⟩
  · exact absurd (cellAt_gridSet_empty hbd (tr, tc) hde) hne

theorem checkersStage_ok_dest {b : Board} {figure : Figure} {fr fc tr tc : Int}
    {cap cap' : Option Figure} {b3 : Board}
    (h : checkersStage b figure fr fc tr tc cap = .ok (cap', b3))
    (hch : figure.kind = .checker → cellAt b (tr, tc) = ".")
    (hckk : figure.kind = .checkerKing → cellAt b (tr, tc) = ".")
    (hne : cellAt b3 (tr, tc) ≠ ".") : cap' = cap ∧ b3 = b := by
  rcases checkersStage_ok_board h with ⟨h1, h2⟩ | ⟨hk, q, hbd, -⟩
  · exact ⟨h1, h2⟩
  · have hde : cellAt b (tr, tc) = "." := by
      rcases hk with hk | hk
      · exact hch hk
      · exact hckk hk
    exact absurd (cellAt_gridSet_empty hbd (tr, tc) hde) hne

theorem fiveErr_ne {e : Err}
    (he : e = .emptyCell ∨ e = .wrongOwner ∨ e = .illegalMove ∨
      e = .protectedGuardian ∨ e = .occupiedBySelf) :
    e ≠ .keyError ∧ e ≠ .invalidPosition ∧ e ≠ .emptyRemove := by
  rcases he with rfl | rfl | rfl | rfl | rfl <;> exact ⟨by decide, by decide, by decide⟩

/-! ### Claim C2 -/

/-- C2 (amended): whenever `move_figure` rejects a move with one of the five
spec rejection conditions (empty origin, wrong owner, legality predicate,
protected Guardian, friendly destination), the board returned at the raise
site is exactly the input board — no field changes.  Moreover every such
rejection except the friendly-destination one is already decided by the
checks that run strictly before `save_state` (`preSnapshotReject`); the
friendly-destination rejection is raised only after the snapshot is taken
(see the counterexample theorem). -/
theorem c2_rejection_state_unchanged (b : Board) (fp tp : String) (pl : Color)
    (promo : PromoChoice) (e : Err) (b' : Board)
    (hmv : move_figure b fp tp pl promo = .error (e, b'))
    (he : e = .emptyCell ∨ e = .wrongOwner ∨ e = .illegalMove ∨
      e = .protectedGuardian ∨ e = .occupiedBySelf) :
    b' = b ∧ (e ≠ .occupiedBySelf → preSnapshotReject b fp tp pl = some e) := by
  obtain ⟨hk1, hk2, hk3⟩ := fiveErr_ne he
  unfold move_figure at hmv
  split at hmv
  · -- malformed from-position
    rename_i hpf
    injection hmv with h1
    injection h1 with h2 h3
    exact absurd h2.symm hk2
  · rename_i fr fc hpf
    split at hmv
    · -- malformed to-position
      rename_i hpt
      injection hmv with h1
      injection h1 with h2 h3
      exact absurd h2.symm hk2
    · rename_i tr tc hpt
      split at hmv
      · -- empty origin cell
        rename_i hoe
        injection hmv with h1
        injection h1 with h2 h3
        refine ⟨h3.symm, fun _ => ?_⟩
        simp only [preSnapshotReject, hpf, hpt, if_pos hoe]
        rw [h2]
      · rename_i hoe
        split at hmv
        · -- KeyError on the origin lookup (inconsistent board)
          rename_i hfig
          injection hmv with h1
          injection h1 with h2 h3
          exact absurd h2.symm hk1
        · rename_i figure hfig
          split at hmv
          · -- wrong owner
            rename_i hcol
            injection hmv with h1
            injection h1 with h2 h3
            refine ⟨h3.symm, fun _ => ?_⟩
            simp only [preSnapshotReject, hpf, hpt, if_neg hoe, hfig, if_pos hcol]
            rw [h2]
          · rename_i hcol
            split at hmv
            · -- legality predicate rejects
              rename_i b1 hcm
              injection hmv with h1
              injection h1 with h2 h3
              have hb1 : b1 = b := by
                have hx := @canMoveSt_false_snd figure tr tc b (by rw [hcm])
                rw [hcm] at hx
                exact hx
              refine ⟨h3.symm.trans hb1, fun _ => ?_⟩
              simp only [preSnapshotReject, hpf, hpt, if_neg hoe, hfig, if_neg hcol, hcm]
              rw [h2]
            · rename_i b1 hcm
              split at hmv
              · -- guardianCheck rejects (protected Guardian, or KeyError)
                rename_i e0 hg
                injection hmv with h1
                injection h1 with h2 h3
                have hne1 : cellAt b1 (tr, tc) ≠ "." := guardianCheck_some_dest hg
                have hcell := canMoveSt_snd_cellAt figure tr tc b (tr, tc)
                rw [hcm] at hcell
                have hb1 : b1 = b :=
                  canMoveSt_true_snd_of_dest_nonempty hcm (fun hc => hne1 (hcell.trans hc))
                refine ⟨h3 ▸ hb1, fun _ => ?_⟩
                simp only [preSnapshotReject, hpf, hpt, if_neg hoe, hfig, if_neg hcol, hcm, hg]
                rw [h2]
              · rename_i hg
                split at hmv
                · -- KeyError inside the en-passant resolution
                  rename_i p hep
                  obtain ⟨e0, b0⟩ := p
                  injection hmv with h1
                  injection h1 with h2 h3
                  rw [← h2] at hk1
                  exact absurd (enPassantStage_error_kinds hep) hk1
                · rename_i cap1 b2 hep
                  split at hmv
                  · -- KeyError inside the checkers resolution
                    rename_i p hcs
                    obtain ⟨e0, b0⟩ := p
                    injection hmv with h1
                    injection h1 with h2 h3
                    rw [← h2] at hk1
                    exact absurd (checkersStage_error_kinds hcs) hk1
                  · rename_i cap2 b3 hcs
                    unfold mainStage at hmv
                    split at hmv
                    · rename_i hne3
                      split at hmv
                      · -- KeyError at the destination lookup
                        rename_i htf
                        injection hmv with h1
                        injection h1 with h2 h3
                        exact absurd h2.symm hk1
                      · rename_i tf htf
                        split at hmv
                        · -- friendly destination: after the special stages
                          rename_i hsame
                          injection hmv with h1
                          injection h1 with h2 h3
                          have hcell := canMoveSt_snd_cellAt figure tr tc b (tr, tc)
                          rw [hcm] at hcell
                          have hch : figure.kind = .checker → cellAt b2 (tr, tc) = "." := by
                            intro hk
                            have h0 := canMoveSt_checker_true hk
                              (by rw [hcm] : (canMoveSt figure tr tc b).1 = true)
                            exact enPassantStage_ok_preserve_empty hep (hcell.trans h0)
                          have hckk : figure.kind = .checkerKing → cellAt b2 (tr, tc) = "." := by
                            intro hk
                            obtain ⟨h0, -⟩ := canMoveSt_ck_true hk hcm
                            exact enPassantStage_ok_preserve_empty hep (hcell.trans h0)
                          obtain ⟨-, hb32⟩ := checkersStage_ok_dest hcs hch hckk hne3
                          have hne2 : cellAt b2 (tr, tc) ≠ "." := hb32 ▸ hne3
                          obtain ⟨-, hb21⟩ := enPassantStage_ok_dest hep hne2
                          have hne1 : cellAt b1 (tr, tc) ≠ "." := hb21 ▸ hne2
                          have hb1 : b1 = b :=
                            canMoveSt_true_snd_of_dest_nonempty hcm
                              (fun hc => hne1 (hcell.trans hc))
                          refine ⟨h3 ▸ (hb32.trans (hb21.trans hb1)), fun hne' => ?_⟩
                          exact absurd h2.symm hne'
                        · rename_i hsame
                          split at hmv
                          · -- error from remove_figure
                            rename_i p hrm
                            obtain ⟨e0, b0⟩ := p
                            injection hmv with h1
                            injection h1 with h2 h3
                            rw [← h2] at hk1 hk2 hk3
                            rcases remove_figure_error_kinds hrm with h | h | h
                            · exact absurd h hk2
                            · exact absurd h hk3
                            · exact absurd h hk1
                          · rename_i b4 hrm
                            exact absurd (relocateStage_error_kinds hmv) hk1
                    · rename_i hne3
                      exact absurd (relocateStage_error_kinds hmv) hk1

/-- A white rook on A8 with a white pawn on B8. -/
def rkW : Figure := ⟨.rook, .white, 0, 0⟩

/-- The white pawn on B8 next to `rkW`. -/
def pwC : Figure := ⟨.pawn, .white, 0, 1⟩

/-- Board with `rkW` on A8 and `pwC` on B8 (friendly destination setup). -/
def bC4 : Board :=
  { game_type := .chess
    board := gridSet (gridSet create_board (0, 0) "R") (0, 1) "P"
    figures := [((0, 0), rkW), ((0, 1), pwC)]
    last_move := none
    move_history := []
    enemy_to_capture := none
    move_count := 0 }

/-- C2 counterexample: the friendly-destination rejection is NOT decided
before the snapshot.  On `bC4`, moving the white rook A8-B8 is rejected with
`OccupiedBySelf` (state unchanged), yet every check that runs before
`save_state` passes — the rejection is raised only after the snapshot is
taken, refuting "the rejection occurs strictly before the snapshot". -/
theorem c2_snapshot_before_rejection_cex :
    Consistent bC4 ∧
    move_figure bC4 "A8" "B8" .white .Q = .error (.occupiedBySelf, bC4) ∧
    preSnapshotReject bC4 "A8" "B8" .white = none := by
  refine ⟨by decide, rfl, rfl⟩

/-- C2 witness: instantiation of the rejection theorem on a concrete rejected
move (empty origin A3 on `bC1`). -/
theorem c2_rejection_state_unchanged_witness :
    move_figure bC1 "A3" "A4" .white .Q = .error (.emptyCell, bC1) ∧
    (bC1 = bC1 ∧ (Err.emptyCell ≠ Err.occupiedBySelf →
      preSnapshotReject bC1 "A3" "A4" .white = some .emptyCell)) :=
  ⟨rfl, c2_rejection_state_unchanged bC1 "A3" "A4" .white .Q .emptyCell bC1 rfl
    (Or.inl rfl)⟩

/-! ### Claim C4 -/

theorem enPassantStage_not_pawn {b : Board} {figure : Figure} {fr fc tr tc : Int}
    {cap : Option Figure} (h : figure.kind ≠ .pawn) :
    enPassantStage b figure fr fc tr tc cap = .ok (cap, b) := by
  unfold enPassantStage
  rw [if_neg (fun hc => h hc.2.1)]

theorem enPassantStage_dest_nonempty {b : Board} {figure : Figure} {fr fc tr tc : Int}
    {cap : Option Figure} (h : cellAt b (tr, tc) ≠ ".") :
    enPassantStage b figure fr fc tr tc cap = .ok (cap, b) := by
  unfold enPassantStage
  rw [if_neg (fun hc => h hc.2.2.2)]

theorem checkersStage_skip {b : Board} {figure : Figure} {fr fc tr tc : Int}
    {cap : Option Figure} (h1 : figure.kind ≠ .checker) (h2 : figure.kind ≠ .checkerKing) :
    checkersStage b figure fr fc tr tc cap = .ok (cap, b) := by
  unfold checkersStage
  by_cases g1 : b.game_type = .checkers
  · rw [if_pos g1, if_neg (fun hc => h1 hc.1), if_neg h2]
  · rw [if_neg g1]

theorem relocateStage_ok_of_isSome (b : Board) (figure : Figure) (fr fc tr tc : Int)
    (fp tp : String) (cap : Option Figure)
    (snap : List (List String) × List ((Int × Int) × Figure)) (pl : Color)
    (promo : PromoChoice) (h : (dictGet b.figures (fr, fc)).isNone = false) :
    ∃ bout, relocateStage b figure fr fc tr tc fp tp cap snap pl promo = .ok bout := by
  unfold relocateStage
  rw [if_neg (by rw [h]; exact Bool.false_ne_true)]
  exact ⟨_, rfl⟩

/-- C4 counterexample: `Rook.can_move` does NOT refuse a friendly-occupied
destination — it never inspects the destination cell at all.  The white rook
on A8 may "move" onto its own pawn on B8 according to the legality predicate. -/
theorem c4_can_move_friendly_dest_cex :
    Consistent bC4 ∧
    dictGet bC4.figures (0, 1) = some pwC ∧
    pwC.color = rkW.color ∧
    (canMoveSt rkW 0 1 bC4).1 = true := by
  refine ⟨by decide, rfl, rfl, by decide⟩

/-- C4 (amended): for the sliding/stepping variants the legality predicate
ignores the destination occupant, so a friendly-occupied destination can pass
`can_move`; such a move is then rejected by the same-color check inside
`move_figure` (raised after the snapshot), which is therefore reachable, not
dead code.  Formally: if all earlier checks pass, the moving piece is one of
the eight sliding/stepping variants, its predicate accepts, and the
destination holds a same-color piece that is not a protected Guardian, then
`move_figure` raises `OccupiedBySelf` with the board unchanged. -/
theorem c4_friendly_dest_rejected_by_move_figure
    (b : Board) (fp tp : String) (pl : Color) (promo : PromoChoice)
    (fr fc tr tc : Int) (figure tf : Figure)
    (hpf : algebraic_to_indices fp = some (fr, fc))
    (hpt : algebraic_to_indices tp = some (tr, tc))
    (hoe : cellAt b (fr, fc) ≠ ".")
    (hfig : dictGet b.figures (fr, fc) = some figure)
    (hcol : figure.color = pl)
    (hkind : figure.kind = .rook ∨ figure.kind = .knight ∨ figure.kind = .bishop ∨
      figure.kind = .queen ∨ figure.kind = .king ∨ figure.kind = .lightRook ∨
      figure.kind = .shortBishop ∨ figure.kind = .guardian)
    (hcm : (canMoveSt figure tr tc b).1 = true)
    (hne : cellAt b (tr, tc) ≠ ".")
    (htf : dictGet b.figures (tr, tc) = some tf)
    (hsame : tf.color = figure.color)
    (hguard : ¬(tf.kind = .guardian ∧ is_guardian_protected b tr tc tf.color = true)) :
    move_figure b fp tp pl promo = .error (.occupiedBySelf, b) := by
  have hks : figure.kind ≠ .pawn ∧ figure.kind ≠ .checker ∧ figure.kind ≠ .checkerKing := by
    rcases hkind with h | h | h | h | h | h | h | h <;> (rw [h]; exact ⟨by decide, by decide, by decide⟩)
  have hcm' : canMoveSt figure tr tc b = (true, b) := by
    have hsnd := canMoveSt_snd_of_ne_ck tr tc b hks.2.2
    rcases hres : canMoveSt figure tr tc b with ⟨ok, b1⟩
    rw [hres] at hcm hsnd
    exact Prod.ext hcm hsnd
  have hgc : guardianCheck b tr tc = none := by
    unfold guardianCheck
    rw [if_pos hne]
    simp only [htf]
    rw [if_neg hguard]
  simp only [move_figure, hpf, hpt, if_neg hoe, hfig, if_neg (not_not_intro hcol), hcm', hgc,
    enPassantStage_not_pawn hks.1, checkersStage_skip hks.2.1 hks.2.2]
  unfold mainStage
  rw [if_pos hne]
  simp only [htf]
  rw [if_pos hsame]

/-- C4 witness: the amended theorem applied to `bC4` (rook A8 onto own pawn
B8). -/
theorem c4_friendly_dest_rejected_witness :
    move_figure bC4 "A8" "B8" .white .Q = .error (.occupiedBySelf, bC4) :=
  c4_friendly_dest_rejected_by_move_figure bC4 "A8" "B8" .white .Q 0 0 0 1 rkW pwC
    rfl rfl (by decide) rfl rfl (Or.inl rfl) (by decide) (by decide) rfl rfl (by decide)

/-! ### Claim C7 -/

/-- C7: if the pre-Guardian validation passes (origin occupied by the
player's piece whose legality predicate accepts the move) and the destination
holds a Guardian, then: (a) whenever any of the Guardian's neighbors holds a
piece of the Guardian's color, the move is rejected with `ProtectedGuardian`
and the board is unchanged; (b) with no such friendly neighbor, the same
otherwise-legal capture (by an enemy piece) succeeds. -/
theorem c7_guardian_protection
    (b : Board) (fp tp : String) (pl : Color) (promo : PromoChoice)
    (fr fc tr tc : Int) (figure tf : Figure)
    (hpf : algebraic_to_indices fp = some (fr, fc))
    (hpt : algebraic_to_indices tp = some (tr, tc))
    (hoe : cellAt b (fr, fc) ≠ ".")
    (hfig : dictGet b.figures (fr, fc) = some figure)
    (hcol : figure.color = pl)
    (hcm : (canMoveSt figure tr tc b).1 = true)
    (hne : cellAt b (tr, tc) ≠ ".")
    (htf : dictGet b.figures (tr, tc) = some tf)
    (hguardian : tf.kind = .guardian) :
    (is_guardian_protected b tr tc tf.color = true →
      move_figure b fp tp pl promo = .error (.protectedGuardian, b)) ∧
    (is_guardian_protected b tr tc tf.color = false → tf.color ≠ figure.color →
      ∃ b', move_figure b fp tp pl promo = .ok b') := by
  have hcm' : canMoveSt figure tr tc b = (true, b) := by
    rcases hres : canMoveSt figure tr tc b with ⟨ok, b1⟩
    rw [hres] at hcm
    obtain rfl : ok = true := hcm
    have hb1 : b1 = b := canMoveSt_true_snd_of_dest_nonempty hres hne
    rw [hb1]
  constructor
  · intro hprot
    have hgc : guardianCheck b tr tc = some .protectedGuardian := by
      unfold guardianCheck
      rw [if_pos hne]
      simp only [htf]
      rw [if_pos ⟨hguardian, hprot⟩]
    simp only [move_figure, hpf, hpt, if_neg hoe, hfig, if_neg (not_not_intro hcol), hcm', hgc]
  · intro hprot hcolor
    have hgc : guardianCheck b tr tc = none := by
      unfold guardianCheck
      rw [if_pos hne]
      simp only [htf]
      rw [if_neg (fun hc => by rw [hprot] at hc; exact Bool.false_ne_true hc.2)]
    have hnc : figure.kind ≠ .checker := fun hk => hne (canMoveSt_checker_true hk hcm)
    have hnck : figure.kind ≠ .checkerKing := fun hk => by
      obtain ⟨hempty, -⟩ := canMoveSt_ck_true hk hcm'
      exact hne hempty
    have hne_pos : (fr, fc) ≠ (tr, tc) := by
      intro hpe
      rw [hpe, htf] at hfig
      injection hfig with hfe
      rw [← hfe] at hcolor
      exact hcolor rfl
    have hrm : remove_figure b tp = .ok
        { b with board := gridSet b.board (tr, tc) ".",
                 figures := dictDel b.figures (tr, tc) } := by
      unfold remove_figure
      simp only [hpt]
      rw [if_neg hne, if_neg (by simp [htf])]
    have hiso : (dictGet (dictDel b.figures (tr, tc)) (fr, fc)).isNone = false := by
      rw [dictGet_dictDel_ne _ hne_pos, hfig]
      rfl
    obtain ⟨bout, hrel⟩ := relocateStage_ok_of_isSome
      ({ b with board := gridSet b.board (tr, tc) ".",
                figures := dictDel b.figures (tr, tc) })
      figure fr fc tr tc fp tp (some tf)
      (b.board, b.figures) pl promo hiso
    refine ⟨bout, ?_⟩
    simp only [move_figure, hpf, hpt, if_neg hoe, hfig, if_neg (not_not_intro hcol), hcm', hgc,
      enPassantStage_dest_nonempty hne, checkersStage_skip hnc hnck]
    unfold mainStage
    rw [if_pos hne]
    simp only [htf]
    rw [if_neg (fun hc => hcolor hc), hrm]
    exact hrel

/-- The scenario-3 boards: white Guardian on B1, white pawn on A2 (the
protector), black queen on B8 attacking down the B file; `bC7b` is the same
board without the protecting pawn. -/
def gdW : Figure := ⟨.guardian, .white, 7, 1⟩

/-- The protecting white pawn on A2. -/
def pwD : Figure := ⟨.pawn, .white, 6, 0⟩

/-- The attacking black queen on B8. -/
def qB : Figure := ⟨.queen, .black, 0, 1⟩

/-- Protected-Guardian board (scenario 3 of the spec). -/
def bC7 : Board :=
  { game_type := .modified_chess
    board := gridSet (gridSet (gridSet create_board (7, 1) "G") (6, 0) "P") (0, 1) "q"
    figures := [((7, 1), gdW), ((6, 0), pwD), ((0, 1), qB)]
    last_move := none
    move_history := []
    enemy_to_capture := none
    move_count := 0 }

/-- The same board with the protecting pawn removed. -/
def bC7b : Board :=
  { game_type := .modified_chess
    board := gridSet (gridSet create_board (7, 1) "G") (0, 1) "q"
    figures := [((7, 1), gdW), ((0, 1), qB)]
    last_move := none
    move_history := []
    enemy_to_capture := none
    move_count := 0 }

/-- C7 witness: on `bC7` the black queen's capture B8-B1 of the protected
Guardian is rejected with `ProtectedGuardian`; after removing the protecting
pawn (`bC7b`) the same capture succeeds. -/
theorem c7_guardian_protection_witness :
    move_figure bC7 "B8" "B1" .black .Q = .error (.protectedGuardian, bC7) ∧
    ∃ b', move_figure bC7b "B8" "B1" .black .Q = .ok b' := by
  constructor
  · exact (c7_guardian_protection bC7 "B8" "B1" .black .Q 0 1 7 1 qB gdW
      rfl rfl (by decide) rfl rfl (by decide) (by decide) rfl rfl).1 (by decide)
  · exact (c7_guardian_protection bC7b "B8" "B1" .black .Q 0 1 7 1 qB gdW
      rfl rfl (by decide) rfl rfl (by decide) (by decide) rfl rfl).2 (by decide) (by decide)

/-! ### Claim C9 -/

/-- C9: `undo_move` on an empty history is a no-op returning `none` (the
board is returned entirely unchanged); on a non-empty history it pops exactly
the most recent entry, restores the grid and figure map from that entry's
snapshot, restores `last_move` from the entry, decrements the move counter by
one, and returns the player who made the undone move. -/
theorem c9_undo_move_spec (b : Board) :
    (b.move_history = [] → undo_move b = (none, b)) ∧
    (∀ entry rest, b.move_history = entry :: rest →
      undo_move b = (some entry.current_player,
        { b with board := entry.board_state.1, figures := entry.board_state.2,
                 last_move := entry.last_move, move_history := rest,
                 move_count := b.move_count - 1 })) := by
  constructor
  · intro h
    unfold undo_move
    rw [h]
  · intro entry rest h
    unfold undo_move
    rw [h]

/-- C9 witness: the spec applied to the empty-history board `bC1` and to the
one-entry board `bC1After`. -/
theorem c9_undo_move_spec_witness :
    undo_move bC1 = (none, bC1) ∧
    ∃ entry rest, bC1After.move_history = entry :: rest ∧
      undo_move bC1After = (some entry.current_player,
        { bC1After with board := entry.board_state.1, figures := entry.board_state.2,
                        last_move := entry.last_move, move_history := rest,
                        move_count := bC1After.move_count - 1 }) :=
  ⟨(c9_undo_move_spec bC1).1 rfl,
   ⟨_, _, rfl, (c9_undo_move_spec bC1After).2 _ _ rfl⟩⟩

/-! ### Claim C10 -/

theorem promotions_admin (b : Board) (figure : Figure) (tr tc : Int) (promo : PromoChoice) :
    (promotions b figure tr tc promo).move_count = b.move_count ∧
    (promotions b figure tr tc promo).move_history = b.move_history := by
  unfold promotions
  split_ifs <;> exact ⟨rfl, rfl⟩

theorem relocateStage_admin_error {b : Board} {figure : Figure} {fr fc tr tc : Int}
    {fp tp : String} {cap : Option Figure}
    {snap : List (List String) × List ((Int × Int) × Figure)} {pl : Color}
    {promo : PromoChoice} {e : Err} {b' : Board}
    (h : relocateStage b figure fr fc tr tc fp tp cap snap pl promo = .error (e, b')) :
    b'.move_count = b.move_count ∧ b'.move_history = b.move_history := by
  unfold relocateStage at h
  split at h
  · injection h with h1
    injection h1 with h2 h3
    rw [← h3]
    exact ⟨rfl, rfl⟩
  · exact absurd h (by simp)

theorem relocateStage_admin_ok {b : Board} {figure : Figure} {fr fc tr tc : Int}
    {fp tp : String} {cap : Option Figure}
    {snap : List (List String) × List ((Int × Int) × Figure)} {pl : Color}
    {promo : PromoChoice} {bout : Board}
    (h : relocateStage b figure fr fc tr tc fp tp cap snap pl promo = .ok bout) :
    bout.move_count = b.move_count + 1 ∧
    bout.move_history.length = b.move_history.length + 1 := by
  unfold relocateStage at h
  split at h
  · exact absurd h (by simp)
  · injection h with h1
    rw [← h1]
    constructor
    · rw [(promotions_admin _ figure tr tc promo).1]
    · rw [(promotions_admin _ figure tr tc promo).2]
      exact List.length_cons _ _

theorem remove_figure_admin_error {b : Board} {pos : String} {e : Err} {b' : Board}
    (h : remove_figure b pos = .error (e, b')) :
    b'.move_count = b.move_count ∧ b'.move_history = b.move_history := by
  unfold remove_figure at h
  split at h
  · injection h with h1
    injection h1 with h2 h3
    rw [← h3]
    exact ⟨rfl, rfl⟩
  · split at h
    · injection h with h1
      injection h1 with h2 h3
      rw [← h3]
      exact ⟨rfl, rfl⟩
    · split at h
      · injection h with h1
        injection h1 with h2 h3
        rw [← h3]
        exact ⟨rfl, rfl⟩
      · exact absurd h (by simp)

theorem remove_figure_admin_ok {b : Board} {pos : String} {b2 : Board}
    (h : remove_figure b pos = .ok b2) :
    b2.move_count = b.move_count ∧ b2.move_history = b.move_history := by
  unfold remove_figure at h
  split at h
  · exact absurd h (by simp)
  · split at h
    · exact absurd h (by simp)
    · split at h
      · exact absurd h (by simp)
      · injection h with h1
        rw [← h1]
        exact ⟨rfl, rfl⟩

theorem enPassantStage_admin_error {b : Board} {figure : Figure} {fr fc tr tc : Int}
    {cap : Option Figure} {e : Err} {b' : Board}
    (h : enPassantStage b figure fr fc tr tc cap = .error (e, b')) :
    b'.move_count = b.move_count ∧ b'.move_history = b.move_history := by
  unfold enPassantStage at h
  split at h
  · split at h
    · split at h
      · obtain ⟨-, hb⟩ := removeAtSquare_error h
        rw [hb]
        exact ⟨rfl, rfl⟩
      · exact absurd h (by simp)
    · exact absurd h (by simp)
  · exact absurd h (by simp)

theorem enPassantStage_admin_ok {b : Board} {figure : Figure} {fr fc tr tc : Int}
    {cap cap' : Option Figure} {b2 : Board}
    (h : enPassantStage b figure fr fc tr tc cap = .ok (cap', b2)) :
    b2.move_count = b.move_count ∧ b2.move_history = b.move_history := by
  rcases enPassantStage_ok_board h with ⟨-, rfl⟩ | ⟨q, -, -, -, -, hh, -, hc, -⟩
  · exact ⟨rfl, rfl⟩
  · exact ⟨hc, hh⟩

theorem checkersStage_admin_error {b : Board} {figure : Figure} {fr fc tr tc : Int}
    {cap : Option Figure} {e : Err} {b' : Board}
    (h : checkersStage b figure fr fc tr tc cap = .error (e, b')) :
    b'.move_count = b.move_count ∧ b'.move_history = b.move_history := by
  unfold checkersStage at h
  split at h
  · split at h
    · obtain ⟨-, hb⟩ := removeAtSquare_error h
      rw [hb]
      exact ⟨rfl, rfl⟩
    · split at h
      · split at h
        · split at h
          · rename_i p hrem
            obtain ⟨e0, b0⟩ := p
            obtain ⟨-, hb⟩ := removeAtSquare_error hrem
            injection h with h1
            injection h1 with h2 h3
            rw [← h3, hb]
            exact ⟨rfl, rfl⟩
          · exact absurd h (by simp)
        · exact absurd h (by simp)
      · exact absurd h (by simp)
  · exact absurd h (by simp)

theorem checkersStage_admin_ok {b : Board} {figure : Figure} {fr fc tr tc : Int}
    {cap cap' : Option Figure} {b3 : Board}
    (h : checkersStage b figure fr fc tr tc cap = .ok (cap', b3)) :
    b3.move_count = b.move_count ∧ b3.move_history = b.move_history := by
  rcases checkersStage_ok_board h with ⟨-, rfl⟩ | ⟨-, q, -, -, -, hh, hc⟩
  · exact ⟨rfl, rfl⟩
  · exact ⟨hc, hh⟩

theorem mainStage_admin_error {b : Board} {figure : Figure} {fr fc tr tc : Int}
    {fp tp : String} {cap : Option Figure}
    {snap : List (List String) × List ((Int × Int) × Figure)} {pl : Color}
    {promo : PromoChoice} {e : Err} {b' : Board}
    (h : mainStage b figure fr fc tr tc fp tp cap snap pl promo = .error (e, b')) :
    b'.move_count = b.move_count ∧ b'.move_history = b.move_history := by
  unfold mainStage at h
  split at h
  · split at h
    · injection h with h1
      injection h1 with h2 h3
      rw [← h3]
      exact ⟨rfl, rfl⟩
    · split at h
      · injection h with h1
        injection h1 with h2 h3
        rw [← h3]
        exact ⟨rfl, rfl⟩
      · split at h
        · rename_i p hrm
          obtain ⟨e0, b0⟩ := p
          injection h with h1
          injection h1 with h2 h3
          obtain ⟨hc, hh⟩ := remove_figure_admin_error hrm
          rw [← h3]
          exact ⟨hc, hh⟩
        · rename_i b4 hrm
          obtain ⟨hc, hh⟩ := remove_figure_admin_ok hrm
          obtain ⟨hc2, hh2⟩ := relocateStage_admin_error h
          exact ⟨hc2.trans hc, hh2.trans hh⟩
  · exact relocateStage_admin_error h

theorem mainStage_admin_ok {b : Board} {figure : Figure} {fr fc tr tc : Int}
    {fp tp : String} {cap : Option Figure}
    {snap : List (List String) × List ((Int × Int) × Figure)} {pl : Color}
    {promo : PromoChoice} {bout : Board}
    (h : mainStage b figure fr fc tr tc fp tp cap snap pl promo = .ok bout) :
    bout.move_count = b.move_count + 1 ∧
    bout.move_history.length = b.move_history.length + 1 := by
  unfold mainStage at h
  split at h
  · split at h
    · exact absurd h (by simp)
    · split at h
      · exact absurd h (by simp)
      · split at h
        · exact absurd h (by simp)
        · rename_i b4 hrm
          obtain ⟨hc, hh⟩ := remove_figure_admin_ok hrm
          obtain ⟨hc2, hh2⟩ := relocateStage_admin_ok h
          refine ⟨by rw [hc2, hc], by rw [hh2, hh]⟩
  · exact relocateStage_admin_ok h

theorem move_figure_admin_error {b : Board} {fp tp : String} {pl : Color}
    {promo : PromoChoice} {e : Err} {b' : Board}
    (h : move_figure b fp tp pl promo = .error (e, b')) :
    b'.move_count = b.move_count ∧ b'.move_history = b.move_history := by
  unfold move_figure at h
  split at h
  · injection h with h1
    injection h1 with h2 h3
    rw [← h3]
    exact ⟨rfl, rfl⟩
  · rename_i fr fc hpf
    split at h
    · injection h with h1
      injection h1 with h2 h3
      rw [← h3]
      exact ⟨rfl, rfl⟩
    · rename_i tr tc hpt
      split at h
      · injection h with h1
        injection h1 with h2 h3
        rw [← h3]
        exact ⟨rfl, rfl⟩
      · split at h
        · injection h with h1
          injection h1 with h2 h3
          rw [← h3]
          exact ⟨rfl, rfl⟩
        · rename_i figure hfig
          split at h
          · injection h with h1
            injection h1 with h2 h3
            rw [← h3]
            exact ⟨rfl, rfl⟩
          · split at h
            · rename_i b1 hcm
              injection h with h1
              injection h1 with h2 h3
              obtain ⟨acc, hacc⟩ := canMoveSt_snd_pending figure tr tc b
              rw [hcm] at hacc
              replace hacc : b1 = { b with enemy_to_capture := acc } := hacc
              rw [← h3, hacc]
              exact ⟨rfl, rfl⟩
            · rename_i b1 hcm
              obtain ⟨acc, hacc⟩ := canMoveSt_snd_pending figure tr tc b
              rw [hcm] at hacc
              replace hacc : b1 = { b with enemy_to_capture := acc } := hacc
              split at h
              · injection h with h1
                injection h1 with h2 h3
                rw [← h3, hacc]
                exact ⟨rfl, rfl⟩
              · split at h
                · rename_i p hep
                  obtain ⟨e0, b0⟩ := p
                  injection h with h1
                  injection h1 with h2 h3
                  obtain ⟨hc, hh⟩ := enPassantStage_admin_error hep
                  rw [hacc] at hc hh
                  rw [← h3]
                  exact ⟨hc, hh⟩
                · rename_i cap1 b2 hep
                  obtain ⟨hc1, hh1⟩ := enPassantStage_admin_ok hep
                  rw [hacc] at hc1 hh1
                  split at h
                  · rename_i p hcs
                    obtain ⟨e0, b0⟩ := p
                    injection h with h1
                    injection h1 with h2 h3
                    obtain ⟨hc2, hh2⟩ := checkersStage_admin_error hcs
                    rw [← h3]
                    exact ⟨hc2.trans hc1, hh2.trans hh1⟩
                  · rename_i cap2 b3 hcs
                    obtain ⟨hc2, hh2⟩ := checkersStage_admin_ok hcs
                    obtain ⟨hc3, hh3⟩ := mainStage_admin_error h
                    exact ⟨hc3.trans (hc2.trans hc1), hh3.trans (hh2.trans hh1)⟩

theorem move_figure_admin_ok {b : Board} {fp tp : String} {pl : Color}
    {promo : PromoChoice} {bout : Board}
    (h : move_figure b fp tp pl promo = .ok bout) :
    bout.move_count = b.move_count + 1 ∧
    bout.move_history.length = b.move_history.length + 1 := by
  unfold move_figure at h
  split at h
  · exact absurd h (by simp)
  · rename_i fr fc hpf
    split at h
    · exact absurd h (by simp)
    · rename_i tr tc hpt
      split at h
      · exact absurd h (by simp)
      · split at h
        · exact absurd h (by simp)
        · rename_i figure hfig
          split at h
          · exact absurd h (by simp)
          · split at h
            · exact absurd h (by simp)
            · rename_i b1 hcm
              obtain ⟨acc, hacc⟩ := canMoveSt_snd_pending figure tr tc b
              rw [hcm] at hacc
              replace hacc : b1 = { b with enemy_to_capture := acc } := hacc
              split at h
              · exact absurd h (by simp)
              · split at h
                · exact absurd h (by simp)
                · rename_i cap1 b2 hep
                  obtain ⟨hc1, hh1⟩ := enPassantStage_admin_ok hep
                  rw [hacc] at hc1 hh1
                  split at h
                  · exact absurd h (by simp)
                  · rename_i cap2 b3 hcs
                    obtain ⟨hc2, hh2⟩ := checkersStage_admin_ok hcs
                    obtain ⟨hc3, hh3⟩ := mainStage_admin_ok h
                    constructor
                    · rw [hc3, hc2, hc1]
                    · rw [hh3, hh2, hh1]

/-- One user-level operation of the driver loop in `main.py`: a move command
(with the promotion answer the prompt would return) or an undo command. -/
inductive Op where
  | move (fp tp : String) (pl : Color) (promo : PromoChoice)
  | undo

/-- Apply one operation: the driver catches `ValueError` from `move_figure`
and continues with the board as it stood at the raise site; undo uses the
board returned by `undo_move`. -/
def applyOp (b : Board) : Op → Board
  | .move fp tp pl promo =>
    match move_figure b fp tp pl promo with
    | .ok b' => b'
    | .error (_, b') => b'
  | .undo => (undo_move b).2

/-- Run a sequence of operations from a starting board. -/
def runOps (b : Board) (ops : List Op) : Board := ops.foldl applyOp b

theorem applyOp_invariant {b : Board}
    (hinv : b.move_count = (b.move_history.length : Int)) (op : Op) :
    (applyOp b op).move_count = ((applyOp b op).move_history.length : Int) := by
  cases op with
  | move fp tp pl promo =>
    simp only [applyOp]
    rcases hres : move_figure b fp tp pl promo with ⟨e, b'⟩ | bout
    · obtain ⟨hc, hh⟩ := move_figure_admin_error hres
      show b'.move_count = (b'.move_history.length : Int)
      rw [hc, hh]
      exact hinv
    · obtain ⟨hc, hh⟩ := move_figure_admin_ok hres
      show bout.move_count = (bout.move_history.length : Int)
      rw [hc, hh, hinv]
      push_cast
      ring
  | undo =>
    simp only [applyOp]
    unfold undo_move
    rcases hh : b.move_history with _ | ⟨entry, rest⟩
    · show b.move_count = (b.move_history.length : Int)
      rw [hh] at hinv
      rw [hh]
      exact hinv
    · show b.move_count - 1 = (rest.length : Int)
      rw [hh] at hinv
      rw [hinv]
      simp only [List.length_cons]
      push_cast
      ring

/-- C10: starting from a freshly constructed board, after any sequence of
`move_figure` calls (successful or rejected) and `undo_move` calls (undoing
or no-op), the move counter equals the length of the move history; in
particular it is never negative. -/
theorem c10_move_count_eq_history_length (gt : GameType) (ops : List Op) :
    (runOps (Board.init gt) ops).move_count =
      ((runOps (Board.init gt) ops).move_history.length : Int) ∧
    0 ≤ (runOps (Board.init gt) ops).move_count := by
  have main : ∀ (b : Board), b.move_count = (b.move_history.length : Int) →
      (runOps b ops).move_count = ((runOps b ops).move_history.length : Int) := by
    induction ops with
    | nil =>
      intro b hb
      exact hb
    | cons op rest ih =>
      intro b hb
      exact ih _ (applyOp_invariant hb op)
  have h1 := main (Board.init gt) rfl
  exact ⟨h1, h1 ▸ Int.natCast_nonneg _⟩

/-! ### Claim C5 -/

/-- The mover: a white pawn on E5 (row 3, column 4). -/
def pwA : Figure := ⟨.pawn, .white, 3, 4⟩

/-- A white pawn on D5 (row 3, column 3) that just advanced two squares. -/
def pwB : Figure := ⟨.pawn, .white, 3, 3⟩

/-- Board where the last move was a SAME-color (white) pawn double-step
D7-D5, with the white mover `pwA` beside it on E5. -/
def bC5 : Board :=
  { game_type := .chess
    board := gridSet (gridSet create_board (3, 4) "P") (3, 3) "P"
    figures := [((3, 4), pwA), ((3, 3), pwB)]
    last_move := some ((1, 3), (3, 3), pwB)
    move_history := []
    enemy_to_capture := none
    move_count := 0 }

/-- C5 counterexample: `Pawn.can_move` never compares the color of the
last-moved pawn, so a diagonal-forward move onto an empty cell is judged
legal even when the "en-passant" pawn has the SAME color as the mover —
refuting "if the last-moved pawn has the same color as the mover, the move is
illegal". -/
theorem c5_en_passant_same_color_cex :
    Consistent bC5 ∧
    bC5.last_move = some ((1, 3), (3, 3), pwB) ∧
    pwB.color = pwA.color ∧
    cellAt bC5 (2, 3) = "." ∧
    (canMoveSt pwA 2 3 bC5).1 = true := by
  refine ⟨by decide, rfl, rfl, by decide, by decide⟩

/-- C5 (amended): on a consistent board, a pawn's one-step diagonal-forward
move onto an empty cell is judged legal by `can_move` if and only if the Last
Move was a two-rank advance by ANY pawn (of either color) landing in the
destination column on the mover's current row.  (The source performs no
color check on the last-moved pawn.) -/
theorem c5_pawn_diagonal_empty_iff (b : Board) (f : Figure) (tr tc : Int)
    (hcons : Consistent b)
    (hk : f.kind = .pawn)
    (hdr : tr = f.row + (if f.color = .white then -1 else 1))
    (hdc : (tc - f.column).natAbs = 1)
    (hempty : cellAt b (tr, tc) = ".") :
    (canMoveSt f tr tc b).1 = true ↔
      ∃ lf lt lp, b.last_move = some (lf, lt, lp) ∧ lp.kind = .pawn ∧
        (lt.1 - lf.1).natAbs = 2 ∧ lt.1 = f.row ∧ lt.2 = tc := by
  have hne : tc ≠ f.column := by
    intro he
    rw [he] at hdc
    simp at hdc
  have hnone : dictGet b.figures (tr, tc) = none := by
    rcases hg : dictGet b.figures (tr, tc) with _ | g
    · rfl
    · have hmem := dictGet_mem hg
      obtain ⟨-, -, -, -, -, -, hcell⟩ := hcons.2.2.2.1 _ hmem
      rw [hempty] at hcell
      exact absurd hcell.symm (symbol_ne_dot g)
  simp only [canMoveSt, hk]
  dsimp only [pawnCan]
  rw [if_neg (fun hcond => hne hcond.1), if_neg (fun hcond => hne hcond.1),
    if_pos ⟨hdc, hdr⟩, if_neg (fun hcc => hcc hempty), hnone]
  simp only [Option.isNone_none, eq_self_iff_true, if_true]
  rcases hlm : b.last_move with _ | ⟨lf0, lt0, lp0⟩
  · simp
  · simp only [decide_eq_true_eq]
    constructor
    · intro hcond
      exact ⟨lf0, lt0, lp0, rfl, hcond.1, hcond.2.1, hcond.2.2.1, hcond.2.2.2⟩
    · rintro ⟨lf, lt, lp, hsome, h1, h2, h3, h4⟩
      injection hsome with htrip
      injection htrip with e1 e2
      injection e2 with e3 e4
      subst e1 e3 e4
      exact ⟨h1, h2, h3, h4⟩

/-- C5 witness: the amended iff instantiated on `bC5` (white mover E5 to D6
with an adjacent white double-stepped pawn on D5). -/
theorem c5_pawn_diagonal_empty_iff_witness :
    (canMoveSt pwA 2 3 bC5).1 = true ↔
      ∃ lf lt lp, bC5.last_move = some (lf, lt, lp) ∧ lp.kind = .pawn ∧
        (lt.1 - lf.1).natAbs = 2 ∧ lt.1 = pwA.row ∧ lt.2 = 3 :=
  c5_pawn_diagonal_empty_iff bC5 pwA 2 3 (by decide) rfl (by decide) (by decide) (by decide)

/-! ### Claim C6 -/

theorem scanPath_some_acc (b : Board) (color : Color) (l : List (Int × Int))
    (a : Int × Int) (res : Option (Int × Int)) :
    scanPath b color l (some a) = some res ↔
      (l.filter (fun p => decide (cellAt b p ≠ ".")) = [] ∧ res = some a) := by
  induction l with
  | nil =>
    simp only [scanPath, List.filter_nil, Option.some_inj, true_and]
    exact eq_comm
  | cons p rest ih =>
    by_cases hocc : cellAt b p ≠ "."
    · rcases hg : dictGet b.figures p with _ | g
      · simp [scanPath, hocc, hg]
      · by_cases hmine : g.color = color
        · simp [scanPath, hocc, hg, hmine]
        · simp [scanPath, hocc, hg, hmine]
    · simp only [scanPath, if_neg hocc, List.filter_cons]
      rw [if_neg (by simpa using hocc)]
      exact ih

theorem scanPath_none_char (b : Board) (color : Color) (l : List (Int × Int))
    (res : Option (Int × Int)) :
    scanPath b color l none = some res ↔
      ((∀ p ∈ l.filter (fun p => decide (cellAt b p ≠ ".")),
          ∀ g, dictGet b.figures p = some g → g.color ≠ color) ∧
        ((l.filter (fun p => decide (cellAt b p ≠ ".")) = [] ∧ res = none) ∨
          (∃ q, l.filter (fun p => decide (cellAt b p ≠ ".")) = [q] ∧ res = some q))) := by
  induction l with
  | nil =>
    constructor
    · intro h
      injection h with h1
      exact ⟨by simp, Or.inl ⟨rfl, h1.symm⟩⟩
    · rintro ⟨-, (⟨-, rfl⟩ | ⟨q, hq, -⟩)⟩
      · rfl
      · exact absurd hq (by simp)
  | cons p rest ih =>
    by_cases hocc : cellAt b p ≠ "."
    · have hfc : (p :: rest).filter (fun q => decide (cellAt b q ≠ ".")) =
          p :: rest.filter (fun q => decide (cellAt b q ≠ ".")) := by
        rw [List.filter_cons, if_pos (by simpa using hocc)]
      rcases hg : dictGet b.figures p with _ | g
      · -- missing map entry (Python KeyError, dead on consistent boards):
        -- treated as an enemy, scanning continues with the enemy recorded
        rw [hfc]
        simp only [scanPath, if_pos hocc, hg, Option.isSome_none, Bool.false_eq_true,
          if_false]
        rw [scanPath_some_acc]
        constructor
        · rintro ⟨hrest, hres⟩
          refine ⟨?_, Or.inr ⟨p, by rw [hrest], hres⟩⟩
          intro q hq g hgg
          rw [hrest] at hq
          rcases List.mem_cons.mp hq with rfl | hq'
          · rw [hg] at hgg
            exact absurd hgg (by simp)
          · exact absurd hq' (by simp)
        · rintro ⟨hall, (⟨habs, -⟩ | ⟨q, hq, hres⟩)⟩
          · exact absurd habs (by simp)
          · obtain ⟨rfl, hrest⟩ : p = q ∧ rest.filter (fun r => decide (cellAt b r ≠ ".")) = [] := by
              have := List.cons.injEq p (rest.filter (fun r => decide (cellAt b r ≠ "."))) q []
              rw [this] at hq
              exact hq
            exact ⟨hrest, hres⟩
      · by_cases hmine : g.color = color
        · -- friendly piece on the path: the scan returns False
          rw [hfc]
          simp only [scanPath, if_pos hocc, hg, if_pos hmine]
          constructor
          · intro h
            exact absurd h (by simp)
          · rintro ⟨hall, -⟩
            have := hall p (List.mem_cons_self _ _) g hg
            exact absurd hmine this
        · rw [hfc]
          simp only [scanPath, if_pos hocc, hg, if_neg hmine, Option.isSome_none,
            Bool.false_eq_true, if_false]
          rw [scanPath_some_acc]
          constructor
          · rintro ⟨hrest, hres⟩
            refine ⟨?_, Or.inr ⟨p, by rw [hrest], hres⟩⟩
            intro q hq g' hgg
            rw [hrest] at hq
            rcases List.mem_cons.mp hq with rfl | hq'
            · rw [hg] at hgg
              injection hgg with hge
              exact hge ▸ hmine
            · exact absurd hq' (by simp)
          · rintro ⟨hall, (⟨habs, -⟩ | ⟨q, hq, hres⟩)⟩
            · exact absurd habs (by simp)
            · obtain ⟨rfl, hrest⟩ : p = q ∧ rest.filter (fun r => decide (cellAt b r ≠ ".")) = [] := by
                have := List.cons.injEq p (rest.filter (fun r => decide (cellAt b r ≠ "."))) q []
                rw [this] at hq
                exact hq
              exact ⟨hrest, hres⟩
    · have hfc : (p :: rest).filter (fun q => decide (cellAt b q ≠ ".")) =
          rest.filter (fun q => decide (cellAt b q ≠ ".")) := by
        rw [List.filter_cons, if_neg (by simpa using hocc)]
      rw [hfc]
      simp only [scanPath, if_neg hocc]
      exact ih

theorem diagBetween_mem_range {r c tr tc : Int} (h : (tr - r).natAbs = (tc - c).natAbs)
    (hr : 0 ≤ r) (hr8 : r < 8) (hc : 0 ≤ c) (hc8 : c < 8) (htr : 0 ≤ tr) (htr8 : tr < 8)
    (htc : 0 ≤ tc) (htc8 : tc < 8) {p : Int × Int} (hp : p ∈ diagBetween r c tr tc) :
    0 ≤ p.1 ∧ p.1 < 8 ∧ 0 ≤ p.2 ∧ p.2 < 8 := by
  unfold diagBetween at hp
  obtain ⟨i, hi, hpe⟩ := List.mem_map.mp hp
  rw [List.mem_range] at hi
  subst hpe
  dsimp only
  simp only [Int.ofNat_eq_natCast]
  by_cases h1 : tr > r <;> by_cases h2 : tc > c
  · rw [if_pos h1, if_pos h2]
    omega
  · rw [if_pos h1, if_neg h2]
    omega
  · rw [if_neg h1, if_pos h2]
    omega
  · rw [if_neg h1, if_neg h2]
    omega

theorem mem_intRange {a lo hi : Int} : a ∈ intRange lo hi ↔ lo ≤ a ∧ a < hi := by
  unfold intRange
  constructor
  · intro h
    obtain ⟨i, hi2, rfl⟩ := List.mem_map.mp h
    rw [List.mem_range] at hi2
    simp only [Int.ofNat_eq_natCast]
    omega
  · rintro ⟨h1, h2⟩
    refine List.mem_map.mpr ⟨(a - lo).toNat, List.mem_range.mpr ?_, ?_⟩
    · omega
    · simp only [Int.ofNat_eq_natCast]
      omega

/-- C6: on a consistent board (with the CheckerKing and the destination in
range), `can_move` returns true exactly when the destination lies on a
diagonal from the piece, the strictly intervening cells contain at most one
occupied cell, every occupied intervening cell holds an enemy piece, and the
destination is empty; and on a true result the board's `enemy_to_capture` is
set to the position of the single path enemy when there is one, and cleared
to `none` when there is none (the head of the filtered occupied-path list). -/
theorem c6_checker_king_can_move_iff (b : Board) (f : Figure) (tr tc : Int)
    (hcons : Consistent b) (hk : f.kind = .checkerKing)
    (hfr : 0 ≤ f.row) (hfr8 : f.row < 8) (hfc : 0 ≤ f.column) (hfc8 : f.column < 8)
    (htr : 0 ≤ tr) (htr8 : tr < 8) (htc : 0 ≤ tc) (htc8 : tc < 8) :
    ((canMoveSt f tr tc b).1 = true ↔
      ((tr - f.row).natAbs = (tc - f.column).natAbs ∧
        cellAt b (tr, tc) = "." ∧
        ((diagBetween f.row f.column tr tc).filter
          (fun p => decide (cellAt b p ≠ "."))).length ≤ 1 ∧
        ∀ p ∈ (diagBetween f.row f.column tr tc).filter
          (fun p => decide (cellAt b p ≠ ".")),
          ∃ g, dictGet b.figures p = some g ∧ g.color ≠ f.color)) ∧
    ((canMoveSt f tr tc b).1 = true →
      (canMoveSt f tr tc b).2 = { b with enemy_to_capture :=
        ((diagBetween f.row f.column tr tc).filter
          (fun p => decide (cellAt b p ≠ "."))).head? }) := by
  simp only [canMoveSt, hk]
  unfold checkerKingCan
  by_cases hd : (tr - f.row).natAbs ≠ (tc - f.column).natAbs
  · rw [if_pos hd]
    constructor
    · constructor
      · intro habs
        exact absurd habs (by simp)
      · rintro ⟨hdiag, -⟩
        exact absurd hdiag hd
    · intro habs
      exact absurd habs (by simp)
  · rw [if_neg hd]
    have hdiag : (tr - f.row).natAbs = (tc - f.column).natAbs := not_not.mp hd
    have hocc_some : ∀ p ∈ (diagBetween f.row f.column tr tc).filter
        (fun p => decide (cellAt b p ≠ ".")), (dictGet b.figures p).isSome = true := by
      intro p hp
      have hpmem := (List.mem_filter.mp hp).1
      have hpocc : cellAt b p ≠ "." := by
        have := (List.mem_filter.mp hp).2
        exact of_decide_eq_true this
      obtain ⟨h1, h2, h3, h4⟩ :=
        diagBetween_mem_range hdiag hfr hfr8 hfc hfc8 htr htr8 htc htc8 hpmem
      exact hcons.2.2.2.2 p.1 (mem_intRange.mpr ⟨h1, h2⟩) p.2 (mem_intRange.mpr ⟨h3, h4⟩) hpocc
    have hnotmine : (∀ p ∈ (diagBetween f.row f.column tr tc).filter
          (fun p => decide (cellAt b p ≠ ".")),
          ∃ g, dictGet b.figures p = some g ∧ g.color ≠ f.color) →
        ∀ p ∈ (diagBetween f.row f.column tr tc).filter
          (fun p => decide (cellAt b p ≠ ".")),
          ∀ g, dictGet b.figures p = some g → g.color ≠ f.color := by
      intro hall p hp g hg
      obtain ⟨g', hg', hne'⟩ := hall p hp
      rw [hg] at hg'
      injection hg' with hge
      exact hge ▸ hne'
    rcases hs : scanPath b f.color (diagBetween f.row f.column tr tc) none with _ | acc
    · constructor
      · constructor
        · intro habs
          exact absurd habs (by simp)
        · rintro ⟨-, hempty, hlen, hall⟩
          exfalso
          have hform : (diagBetween f.row f.column tr tc).filter
                (fun p => decide (cellAt b p ≠ ".")) = [] ∨
              ∃ q, (diagBetween f.row f.column tr tc).filter
                (fun p => decide (cellAt b p ≠ ".")) = [q] := by
            rcases hof : (diagBetween f.row f.column tr tc).filter
                (fun p => decide (cellAt b p ≠ ".")) with _ | ⟨q, rest2⟩
            · exact Or.inl rfl
            · rcases rest2 with _ | ⟨q2, rest3⟩
              · exact Or.inr ⟨q, rfl⟩
              · rw [hof] at hlen
                simp at hlen
          have hex : ∃ res0, scanPath b f.color (diagBetween f.row f.column tr tc) none =
              some res0 := by
            rcases hform with hform | ⟨q, hform⟩
            · exact ⟨none, (scanPath_none_char b f.color _ none).mpr
                ⟨hnotmine hall, Or.inl ⟨hform, rfl⟩⟩⟩
            · exact ⟨some q, (scanPath_none_char b f.color _ (some q)).mpr
                ⟨hnotmine hall, Or.inr ⟨q, hform, rfl⟩⟩⟩
          obtain ⟨res0, hres0⟩ := hex
          rw [hs] at hres0
          exact absurd hres0 (by simp)
      · intro habs
        exact absurd habs (by simp)
    · obtain ⟨hall_notmine, hdisj⟩ := (scanPath_none_char b f.color _ acc).mp hs
      dsimp only
      by_cases hde : cellAt b (tr, tc) ≠ "."
      · rw [if_pos hde]
        constructor
        · constructor
          · intro habs
            exact absurd habs (by simp)
          · rintro ⟨-, hempty, -⟩
            exact absurd hempty hde
        · intro habs
          exact absurd habs (by simp)
      · rw [if_neg hde]
        have hempty : cellAt b (tr, tc) = "." := not_not.mp hde
        have hacc : acc = ((diagBetween f.row f.column tr tc).filter
            (fun p => decide (cellAt b p ≠ "."))).head? := by
          rcases hdisj with ⟨hocc0, hres⟩ | ⟨q, hocc1, hres⟩
          · rw [hocc0, hres]
            rfl
          · rw [hocc1, hres]
            rfl
        constructor
        · constructor
          · rintro -
            refine ⟨hdiag, hempty, ?_, ?_⟩
            · rcases hdisj with ⟨hocc0, -⟩ | ⟨q, hocc1, -⟩
              · rw [hocc0]
                simp
              · rw [hocc1]
                simp
            · intro p hp
              have hsome := hocc_some p hp
              rcases hgg : dictGet b.figures p with _ | g
              · rw [hgg] at hsome
                simp at hsome
              · exact ⟨g, rfl, hall_notmine p hp g hgg⟩
          · rintro -
            rfl
        · rintro -
          rw [hacc]

/-- A white checker king on E4 (row 4, column 4). -/
def ckW : Figure := ⟨.checkerKing, .white, 4, 4⟩

/-- A black checker on D5 (row 3, column 3), on the king's diagonal. -/
def chB : Figure := ⟨.checker, .black, 3, 3⟩

/-- Checkers board with `ckW` at (4,4) and the enemy `chB` at (3,3). -/
def bCK : Board :=
  { game_type := .checkers
    board := gridSet (gridSet create_board (4, 4) "K") (3, 3) "c"
    figures := [((4, 4), ckW), ((3, 3), chB)]
    last_move := none
    move_history := []
    enemy_to_capture := none
    move_count := 0 }

/-- C6 witness: the characterization instantiated on `bCK` for the long jump
(4,4) to (2,2) over the single enemy at (3,3). -/
theorem c6_checker_king_can_move_iff_witness :
    ((canMoveSt ckW 2 2 bCK).1 = true ↔
      ((2 - ckW.row).natAbs = (2 - ckW.column).natAbs ∧
        cellAt bCK (2, 2) = "." ∧
        ((diagBetween ckW.row ckW.column 2 2).filter
          (fun p => decide (cellAt bCK p ≠ "."))).length ≤ 1 ∧
        ∀ p ∈ (diagBetween ckW.row ckW.column 2 2).filter
          (fun p => decide (cellAt bCK p ≠ ".")),
          ∃ g, dictGet bCK.figures p = some g ∧ g.color ≠ ckW.color)) ∧
    ((canMoveSt ckW 2 2 bCK).1 = true →
      (canMoveSt ckW 2 2 bCK).2 = { bCK with enemy_to_capture :=
        ((diagBetween ckW.row ckW.column 2 2).filter
          (fun p => decide (cellAt bCK p ≠ "."))).head? }) :=
  c6_checker_king_can_move_iff bCK ckW 2 2 (by decide) rfl (by decide) (by decide)
    (by decide) (by decide) (by decide) (by decide) (by decide) (by decide)

/-! ### Claim C8 -/

theorem gtf_foldl_spec (b : Board) (player : Color) (l : List ((Int × Int) × Figure)) :
    ∀ (acc : List (Int × Int) × Bool),
      (∀ p, p ∈ (l.foldl (fun acc kv =>
          if kv.2.color = player ∧
              is_position_under_threat b kv.1.1 kv.1.2 (opponentOf player) = true then
            (acc.1 ++ [kv.1], acc.2 || decide (kv.2.kind = .king))
          else acc) acc).1 ↔
        p ∈ acc.1 ∨ ∃ kv ∈ l, kv.1 = p ∧ kv.2.color = player ∧
          is_position_under_threat b kv.1.1 kv.1.2 (opponentOf player) = true) ∧
      ((l.foldl (fun acc kv =>
          if kv.2.color = player ∧
              is_position_under_threat b kv.1.1 kv.1.2 (opponentOf player) = true then
            (acc.1 ++ [kv.1], acc.2 || decide (kv.2.kind = .king))
          else acc) acc).2 = true ↔
        acc.2 = true ∨ ∃ kv ∈ l, (kv.2.color = player ∧
          is_position_under_threat b kv.1.1 kv.1.2 (opponentOf player) = true) ∧
          kv.2.kind = .king) := by
  induction l with
  | nil =>
    intro acc
    simp
  | cons kv rest ih =>
    intro acc
    by_cases hcond : kv.2.color = player ∧
        is_position_under_threat b kv.1.1 kv.1.2 (opponentOf player) = true
    · simp only [List.foldl_cons, if_pos hcond]
      obtain ⟨ih1, ih2⟩ := ih (acc.1 ++ [kv.1], acc.2 || decide (kv.2.kind = .king))
      constructor
      · intro p
        rw [ih1 p]
        constructor
        · rintro (hmem | ⟨kv', hkv', hp, hcol, hthr⟩)
          · rcases List.mem_append.mp hmem with h | h
            · exact Or.inl h
            · exact Or.inr ⟨kv, List.mem_cons_self _ _,
                (List.mem_singleton.mp h).symm, hcond.1, hcond.2⟩
          · exact Or.inr ⟨kv', List.mem_cons_of_mem _ hkv', hp, hcol, hthr⟩
        · rintro (h | ⟨kv', hkv', hp, hcol, hthr⟩)
          · exact Or.inl (List.mem_append.mpr (Or.inl h))
          · rcases List.mem_cons.mp hkv' with rfl | hkv''
            · refine Or.inl (List.mem_append.mpr (Or.inr ?_))
              rw [← hp]
              exact List.mem_singleton.mpr rfl
            · exact Or.inr ⟨kv', hkv'', hp, hcol, hthr⟩
      · rw [ih2]
        simp only [Bool.or_eq_true, decide_eq_true_eq]
        constructor
        · rintro ((h | hk) | ⟨kv', hkv', hcnd, hkind⟩)
          · exact Or.inl h
          · exact Or.inr ⟨kv, List.mem_cons_self _ _, hcond, hk⟩
          · exact Or.inr ⟨kv', List.mem_cons_of_mem _ hkv', hcnd, hkind⟩
        · rintro (h | ⟨kv', hkv', hcnd, hkind⟩)
          · exact Or.inl (Or.inl h)
          · rcases List.mem_cons.mp hkv' with rfl | hkv''
            · exact Or.inl (Or.inr hkind)
            · exact Or.inr ⟨kv', hkv'', hcnd, hkind⟩
    · simp only [List.foldl_cons, if_neg hcond]
      obtain ⟨ih1, ih2⟩ := ih acc
      constructor
      · intro p
        rw [ih1 p]
        constructor
        · rintro (h | ⟨kv', hkv', hp, hcol, hthr⟩)
          · exact Or.inl h
          · exact Or.inr ⟨kv', List.mem_cons_of_mem _ hkv', hp, hcol, hthr⟩
        · rintro (h | ⟨kv', hkv', hp, hcol, hthr⟩)
          · exact Or.inl h
          · rcases List.mem_cons.mp hkv' with rfl | hkv''
            · exact absurd ⟨hcol, hthr⟩ hcond
            · exact Or.inr ⟨kv', hkv'', hp, hcol, hthr⟩
      · rw [ih2]
        constructor
        · rintro (h | ⟨kv', hkv', hcnd, hkind⟩)
          · exact Or.inl h
          · exact Or.inr ⟨kv', List.mem_cons_of_mem _ hkv', hcnd, hkind⟩
        · rintro (h | ⟨kv', hkv', hcnd, hkind⟩)
          · exact Or.inl h
          · rcases List.mem_cons.mp hkv' with rfl | hkv''
            · exact absurd hcnd hcond
            · exact Or.inr ⟨kv', hkv'', hcnd, hkind⟩

/-- C8: with duplicate-free figure keys, (i) a square is reported as under
threat exactly when some figure of the opponent color may move onto it
according to its legality predicate; (ii) `get_threatened_figures` reports
exactly the positions of the player's own pieces whose square is under
threat from the opponent; (iii) the check flag is true exactly when the
player's King occupies one of the reported positions. -/
theorem c8_threat_analysis (b : Board) (player : Color)
    (hnd : (b.figures.map Prod.fst).Nodup) :
    (∀ r c, is_position_under_threat b r c (opponentOf player) = true ↔
      ∃ kv ∈ b.figures, kv.2.color = opponentOf player ∧ (canMoveSt kv.2 r c b).1 = true) ∧
    (∀ p, p ∈ (get_threatened_figures b player).1 ↔
      ∃ f, dictGet b.figures p = some f ∧ f.color = player ∧
        is_position_under_threat b p.1 p.2 (opponentOf player) = true) ∧
    ((get_threatened_figures b player).2 = true ↔
      ∃ p ∈ (get_threatened_figures b player).1,
        ∃ f, dictGet b.figures p = some f ∧ f.kind = .king) := by
  have hthreat : ∀ r c, is_position_under_threat b r c (opponentOf player) = true ↔
      ∃ kv ∈ b.figures, kv.2.color = opponentOf player ∧ (canMoveSt kv.2 r c b).1 = true := by
    intro r c
    unfold is_position_under_threat
    rw [List.any_eq_true]
    constructor
    · rintro ⟨kv, hkv, hp⟩
      rw [Bool.and_eq_true, decide_eq_true_eq] at hp
      exact ⟨kv, hkv, hp.1, hp.2⟩
    · rintro ⟨kv, hkv, hcol, hcm⟩
      exact ⟨kv, hkv, by rw [Bool.and_eq_true, decide_eq_true_eq]; exact ⟨hcol, hcm⟩⟩
  obtain ⟨hmem, hflag⟩ := gtf_foldl_spec b player b.figures ([], false)
  have hmem' : ∀ p, p ∈ (get_threatened_figures b player).1 ↔
      ∃ f, dictGet b.figures p = some f ∧ f.color = player ∧
        is_position_under_threat b p.1 p.2 (opponentOf player) = true := by
    intro p
    rw [show (get_threatened_figures b player).1 = (b.figures.foldl (fun acc kv =>
        if kv.2.color = player ∧
            is_position_under_threat b kv.1.1 kv.1.2 (opponentOf player) = true then
          (acc.1 ++ [kv.1], acc.2 || decide (kv.2.kind = .king))
        else acc) ([], false)).1 from rfl]
    rw [hmem p]
    constructor
    · rintro (h | ⟨kv, hkv, hp, hcol, hthr⟩)
      · exact absurd h (by simp)
      · refine ⟨kv.2, ?_, hcol, by rw [← hp]; exact hthr⟩
        rw [← hp]
        exact dictGet_of_mem_nodup hnd (by rw [← Prod.mk.eta (p := kv)] at hkv; exact hkv)
    · rintro ⟨f, hf, hcol, hthr⟩
      right
      exact ⟨(p, f), dictGet_mem hf, rfl, hcol, hthr⟩
  refine ⟨hthreat, hmem', ?_⟩
  rw [show (get_threatened_figures b player).2 = (b.figures.foldl (fun acc kv =>
      if kv.2.color = player ∧
          is_position_under_threat b kv.1.1 kv.1.2 (opponentOf player) = true then
        (acc.1 ++ [kv.1], acc.2 || decide (kv.2.kind = .king))
      else acc) ([], false)).2 from rfl]
  rw [hflag]
  constructor
  · rintro (h | ⟨kv, hkv, ⟨hcol, hthr⟩, hkind⟩)
    · exact absurd h (by simp)
    · refine ⟨kv.1, ?_, kv.2, ?_, hkind⟩
      · rw [hmem' kv.1]
        refine ⟨kv.2, ?_, hcol, hthr⟩
        exact dictGet_of_mem_nodup hnd (by rw [← Prod.mk.eta (p := kv)] at hkv; exact hkv)
      · exact dictGet_of_mem_nodup hnd (by rw [← Prod.mk.eta (p := kv)] at hkv; exact hkv)
  · rintro ⟨p, hp, f, hf, hkind⟩
    right
    obtain ⟨f', hf', hcol, hthr⟩ := (hmem' p).mp hp
    rw [hf] at hf'
    injection hf' with hfe
    refine ⟨(p, f), dictGet_mem hf, ⟨?_, hthr⟩, hkind⟩
    rw [hfe]
    exact hcol

/-- A white king on E1. -/
def kgW : Figure := ⟨.king, .white, 7, 4⟩

/-- A black rook on E8, attacking straight down the E file. -/
def rkB : Figure := ⟨.rook, .black, 0, 4⟩

/-- Board where the black rook on E8 gives check to the white king on E1. -/
def bT : Board :=
  { game_type := .chess
    board := gridSet (gridSet create_board (7, 4) "K") (0, 4) "r"
    figures := [((7, 4), kgW), ((0, 4), rkB)]
    last_move := none
    move_history := []
    enemy_to_capture := none
    move_count := 0 }

/-- C8 witness: the characterization applied to `bT` (black rook E8 checking
the white king E1). -/
theorem c8_threat_analysis_witness :
    (∀ r c, is_position_under_threat bT r c (opponentOf .white) = true ↔
      ∃ kv ∈ bT.figures, kv.2.color = opponentOf .white ∧ (canMoveSt kv.2 r c bT).1 = true) ∧
    (∀ p, p ∈ (get_threatened_figures bT .white).1 ↔
      ∃ f, dictGet bT.figures p = some f ∧ f.color = .white ∧
        is_position_under_threat bT p.1 p.2 (opponentOf .white) = true) ∧
    ((get_threatened_figures bT .white).2 = true ↔
      ∃ p ∈ (get_threatened_figures bT .white).1,
        ∃ f, dictGet bT.figures p = some f ∧ f.kind = .king) :=
  c8_threat_analysis bT .white (by decide)

end ChessOop
